import Mathlib

/-!
A shallow embedding of the miniledger kernel (Go repository simonvc/toyledger):
the money and currency model, the chart-of-accounts model with account
validation, the per-code settings model, the transaction admission protocol of
the store, and the report projections that the verified claims refer to.

Go strings are modelled as Lean `String` (a wrapper around `List Char`), with
the character-level processing done on `String.toList` to mirror the byte-wise
Go code.  Go `int64` values are modelled as `Int` with an explicit
two's-complement wrap (`wrap64`) at every Go-level addition that can
overflow: the `byCurrency` accumulation of `Transaction.Validate`, the
step-7 `txnAmount` accumulation, and the projected-balance addition.  Sums
computed by the storage layer (SQLite `SUM`) are exact: SQLite raises an
integer-overflow error instead of wrapping, which surfaces as a storage
failure aborting the unit of work.
-/

namespace Miniledger

/-! ## Money & currency model (internal/ledger, currency file) -/

/-- Embeds `ledger.CurrencyDef`. -/
structure CurrencyDef where
  Code : String
  Name : String
  Exponent : Nat
  deriving DecidableEq, Repr

/-- Embeds the `ledger.Currencies` map literal (a Go map keyed by `Code`). -/
def Currencies : List CurrencyDef :=
  [ ⟨"USD", "US Dollar", 2⟩
  , ⟨"EUR", "Euro", 2⟩
  , ⟨"GBP", "Pound Sterling", 2⟩
  , ⟨"JPY", "Japanese Yen", 0⟩
  , ⟨"CHF", "Swiss Franc", 2⟩
  , ⟨"AUD", "Australian Dollar", 2⟩
  , ⟨"CAD", "Canadian Dollar", 2⟩
  , ⟨"CNY", "Chinese Yuan", 2⟩
  , ⟨"INR", "Indian Rupee", 2⟩
  , ⟨"SGD", "Singapore Dollar", 2⟩
  , ⟨"HKD", "Hong Kong Dollar", 2⟩
  , ⟨"NZD", "New Zealand Dollar", 2⟩
  , ⟨"SEK", "Swedish Krona", 2⟩
  , ⟨"NOK", "Norwegian Krone", 2⟩
  , ⟨"KRW", "South Korean Won", 0⟩
  , ⟨"BRL", "Brazilian Real", 2⟩
  , ⟨"ZAR", "South African Rand", 2⟩ ]

/-- Embeds the Go map lookup `Currencies[code]`. -/
def findCurrency (code : String) : Option CurrencyDef :=
  Currencies.find? (fun c => c.Code = code)

/-- Embeds `ledger.ValidCurrency`. -/
def ValidCurrency (code : String) : Bool :=
  (findCurrency code).isSome

/-! ## Decimal-string parsing and formatting (ToMinorUnits / FormatAmount)

`int64` arithmetic is modelled on `Int` with an explicit two's-complement
wrap `wrap64` at every operation that can overflow in Go. -/

/-- Two's-complement wrap of an unbounded integer into the `int64` range. -/
def wrap64 (x : Int) : Int :=
  (x + 2 ^ 63) % 2 ^ 64 - 2 ^ 63

/-- Embeds `strings.TrimSpace` (leading and trailing whitespace removed). -/
def trimSpace (cs : List Char) : List Char :=
  ((cs.dropWhile Char.isWhitespace).reverse.dropWhile Char.isWhitespace).reverse

/-- Embeds `strings.SplitN(s, ".", 2)`: the part before the first `.`, and —
when a `.` occurs — the whole remainder after it. -/
def splitDot (cs : List Char) : List Char × Option (List Char) :=
  let w := cs.takeWhile (fun c => c ≠ '.')
  match cs.drop w.length with
  | _ :: rest => (w, some rest)
  | [] => (w, none)

/-- Numeric value of a base-10 digit string (the accumulator loop inside
`strconv.ParseInt`). -/
def digitsToNat (cs : List Char) : Nat :=
  cs.foldl (fun a c => a * 10 + (c.toNat - '0'.toNat)) 0

/-- Digit-run recognizer of `strconv.ParseInt`: a non-empty run of decimal
digits and nothing else. -/
def parseDigitRun (ds : List Char) : Option Nat :=
  if ds ≠ [] ∧ ds.all Char.isDigit then some (digitsToNat ds) else none

/-- Embeds `strconv.ParseInt(s, 10, 64)`: optional sign, a non-empty run of
decimal digits and nothing else, and the signed value must fit in `int64`
(Go returns `ErrRange` otherwise, which `ToMinorUnits` surfaces as an error). -/
def ParseInt64 (cs : List Char) : Option Int :=
  match cs with
  | [] => none
  | c :: rest =>
    if c = '-' then
      match parseDigitRun rest with
      | some n => if (n : Int) ≤ 2 ^ 63 then some (-(n : Int)) else none
      | none => none
    else if c = '+' then
      match parseDigitRun rest with
      | some n => if (n : Int) ≤ 2 ^ 63 - 1 then some (n : Int) else none
      | none => none
    else
      match parseDigitRun (c :: rest) with
      | some n => if (n : Int) ≤ 2 ^ 63 - 1 then some (n : Int) else none
      | none => none

/-- Error kinds produced by `ToMinorUnits`. -/
inductive MoneyErr where
  | invalidCurrency
  | invalidAmount
  | invalidFractionalAmount
  deriving DecidableEq, Repr

/-- Pad the fractional digit run on the right with `'0'` up to the exponent,
then truncate to exactly the exponent (the `for`/slice pair in Go). -/
def padTruncFrac (f : List Char) (e : Nat) : List Char :=
  (f ++ List.replicate (e - f.length) '0').take e

/-- The sign-stripping prelude of `ToMinorUnits` (`strings.HasPrefix` on
`-` and `+`): returns the `negative` flag and the remaining characters. -/
def stripSign (cs : List Char) : Bool × List Char :=
  match cs with
  | [] => (false, [])
  | c :: rest =>
    if c = '-' then (true, rest)
    else if c = '+' then (false, rest)
    else (false, c :: rest)

/-- The arithmetic core of `ToMinorUnits` after trimming, sign stripping and
the `.`-split: whole-part `ParseInt`, multiplier, fractional pad/truncate and
`ParseInt`, and the final negation, with `int64` wrap on every operation. -/
def parseMinorParts (negative : Bool) (wholePart fracPart : List Char)
    (cur : CurrencyDef) : Except MoneyErr Int :=
  match ParseInt64 wholePart with
  | none => .error .invalidAmount
  | some whole =>
    match (if cur.Exponent > 0 ∧ fracPart ≠ [] then
            match ParseInt64 (padTruncFrac fracPart cur.Exponent) with
            | none => Except.error MoneyErr.invalidFractionalAmount
            | some frac =>
              Except.ok (wrap64 (wrap64 (whole * (10 : Int) ^ cur.Exponent) + frac))
          else Except.ok (wrap64 (whole * (10 : Int) ^ cur.Exponent))) with
    | .error e => .error e
    | .ok r => .ok (if negative then wrap64 (-r) else r)

/-- Embeds `ledger.ToMinorUnits`: currency lookup, trim, optional sign,
split at `.`, then the arithmetic core `parseMinorParts`. -/
def ToMinorUnits (amount currency : String) : Except MoneyErr Int :=
  match findCurrency currency with
  | none => .error .invalidCurrency
  | some cur =>
    parseMinorParts (stripSign (trimSpace amount.toList)).1
      (splitDot (stripSign (trimSpace amount.toList)).2).1
      ((splitDot (stripSign (trimSpace amount.toList)).2).2.getD []) cur

/-- Rendering of a Go `%d` of an `int64` value. -/
def intToString (n : Int) : String :=
  if n < 0 then "-" ++ Nat.repr (-n).toNat else Nat.repr n.toNat

/-- Left-pad a decimal rendering with `'0'` to the given width
(Go `%0*d` for non-negative values). -/
def leftPadZeros (width : Nat) (s : String) : String :=
  ⟨List.replicate (width - s.length) '0'⟩ ++ s

/-- Embeds `ledger.FormatAmount`: unknown currencies render as `"%d %s"`,
exponent 0 renders no decimal point, otherwise sign, whole part, `.`, and the
exponent-width zero-padded fractional part. -/
def FormatAmount (amount : Int) (currency : String) : String :=
  match findCurrency currency with
  | none => intToString amount ++ " " ++ currency
  | some cur =>
    if cur.Exponent = 0 then intToString amount
    else
      let negative := amount < 0
      let amt := if negative then wrap64 (-amount) else amount
      let multiplier : Int := (10 : Int) ^ cur.Exponent
      let whole := amt.tdiv multiplier
      let frac := amt.tmod multiplier
      let sign := if negative then "-" else ""
      sign ++ intToString whole ++ "." ++ leftPadZeros cur.Exponent (intToString frac)

/-- Spec-side companion definition for the round-trip claim, following the
spec's description of `format_minor`: sign, integer part, `.`, exactly E
fractional digits, and E = 0 emits no decimal point.  The source's
`FormatAmount` is compared against this form. -/
def canonicalMinorForm (v : Int) (e : Nat) : String :=
  if e = 0 then (if v < 0 then "-" else "") ++ Nat.repr v.natAbs
  else (if v < 0 then "-" else "") ++ Nat.repr (v.natAbs / 10 ^ e)
    ++ "." ++ leftPadZeros e (Nat.repr (v.natAbs % 10 ^ e))

/-! ## Chart-of-accounts model (internal/ledger/templates.go) -/

/-- Go `ledger.Category` is a string type; the five valid values are below. -/
abbrev Category := String

def CategoryAssets : Category := "assets"
def CategoryLiabilities : Category := "liabilities"
def CategoryEquity : Category := "equity"
def CategoryRevenue : Category := "revenue"
def CategoryExpenses : Category := "expenses"

/-- Embeds `ledger.AllCategories`. -/
def AllCategories : List Category :=
  [CategoryAssets, CategoryLiabilities, CategoryEquity, CategoryRevenue, CategoryExpenses]

/-- Embeds `ledger.Account` (`CreatedAt` is irrelevant to validation and omitted). -/
structure Account where
  id : String
  name : String
  code : Int
  category : Category
  currency : String
  isSystem : Bool
  deriving DecidableEq, Repr

/-- The closed error set of `internal/ledger` (errors file), restricted to the
kinds the embedded operations can produce. -/
inductive LedgerErr where
  | invalidAccountCode
  | invalidAccountID
  | codeCategoryMismatch
  | systemAccountNeedsTilde
  | nonSystemAccountTilde
  | invalidCorrespondentID
  | invalidCurrency
  | nameRequired
  deriving DecidableEq, Repr

/-- Embeds `ledger.CategoryForCode`. -/
def CategoryForCode (code : Int) : Except LedgerErr Category :=
  if 1000 ≤ code ∧ code < 2000 then .ok CategoryAssets
  else if 2000 ≤ code ∧ code < 3000 then .ok CategoryLiabilities
  else if 3000 ≤ code ∧ code < 4000 then .ok CategoryEquity
  else if 4000 ≤ code ∧ code < 5000 then .ok CategoryRevenue
  else if 5000 ≤ code ∧ code < 6000 then .ok CategoryExpenses
  else .error .invalidAccountCode

/-- Character class `[a-zA-Z0-9_-]` of the correspondent-ID patterns. -/
def isNameChar (c : Char) : Bool :=
  c.isAlpha || c.isDigit || c = '_' || c = '-'

/-- Matcher for the anchored regex `^<[a-zA-Z0-9_-]+:[a-zA-Z]{3}>$`
(`nostroPattern` in templates.go).  The name class excludes `:`, so the
greedy `+` corresponds exactly to `takeWhile`. -/
def nostroPatternMatch (cs : List Char) : Bool :=
  match cs with
  | '<' :: rest =>
    let nm := rest.takeWhile isNameChar
    let tail := rest.drop nm.length
    decide (nm ≠ []) &&
      (match tail with
       | ':' :: c1 :: c2 :: c3 :: '>' :: [] => c1.isAlpha && c2.isAlpha && c3.isAlpha
       | _ => false)
  | _ => false

/-- Matcher for the anchored regex `^>[a-zA-Z0-9_-]+:[a-zA-Z]{3}<$`
(`vostroPattern` in templates.go). -/
def vostroPatternMatch (cs : List Char) : Bool :=
  match cs with
  | '>' :: rest =>
    let nm := rest.takeWhile isNameChar
    let tail := rest.drop nm.length
    decide (nm ≠ []) &&
      (match tail with
       | ':' :: c1 :: c2 :: c3 :: '<' :: [] => c1.isAlpha && c2.isAlpha && c3.isAlpha
       | _ => false)
  | _ => false

/-- Embeds `ledger.ValidateCorrespondentID`: only codes 1010 (nostro) and
2010 (vostro) constrain the ID shape. -/
def ValidateCorrespondentID (code : Int) (id : String) : Option LedgerErr :=
  if code = 1010 then
    if nostroPatternMatch id.toList then none else some .invalidCorrespondentID
  else if code = 2010 then
    if vostroPatternMatch id.toList then none else some .invalidCorrespondentID
  else none

/-- Embeds `(*Account).Validate` from templates.go: ID non-empty, tilde prefix
iff system, then (for non-system accounts only) code range, code/category
agreement, correspondent-ID shape, currency (wildcard `*` exempt), and name. -/
def Account.Validate (a : Account) : Option LedgerErr :=
  if a.id = "" then some .invalidAccountID
  else
    let isSystemID : Bool := match a.id.toList with
      | '~' :: _ => true
      | _ => false
    if a.isSystem && !isSystemID then some .systemAccountNeedsTilde
    else if !a.isSystem && isSystemID then some .nonSystemAccountTilde
    else if a.isSystem then
      if a.name = "" then some .nameRequired else none
    else if a.code < 1000 ∨ a.code > 5999 then some .invalidAccountCode
    else
      match CategoryForCode a.code with
      | .error e => some e
      | .ok expectedCat =>
        if a.category ≠ expectedCat then some .codeCategoryMismatch
        else
          match ValidateCorrespondentID a.code a.id with
          | some e => some e
          | none =>
            if a.currency ≠ "*" && !ValidCurrency a.currency then some .invalidCurrency
            else if a.name = "" then some .nameRequired
            else none

/-! ## Settings model (internal/ledger settings file, internal/store settings)

Go's `SettingName` and `EntryDirection` are string types; `CodeSettings` is
the resolved per-code record.  Loading settings for a code (store
`GetCodeSettings` and the cache inside `CreateTransaction`) starts from
`DefaultCodeSettings` and folds the `coa_settings` rows for that code. -/

def SettingBlockInverted : String := "BLOCK_NORMAL_INVERTED"
def SettingEntryDirection : String := "ENTRY_DIRECTION"
def DirectionBoth : String := "BOTH"
def DirectionDebitOnly : String := "DEBIT_ONLY"
def DirectionCreditOnly : String := "CREDIT_ONLY"

/-- Embeds `ledger.CoASetting`: one `coa_settings` row. -/
structure CoASetting where
  code : Int
  setting : String
  value : String
  deriving DecidableEq, Repr

/-- Embeds `ledger.CodeSettings`. -/
structure CodeSettings where
  code : Int
  blockInverted : Bool
  entryDirection : String
  deriving DecidableEq, Repr

/-- Embeds `ledger.DefaultCodeSettings`. -/
def DefaultCodeSettings (code : Int) : CodeSettings :=
  ⟨code, false, DirectionBoth⟩

/-- One iteration of the row loop in `GetCodeSettings` /
`CreateTransaction`'s settings cache (the `switch` on the setting name). -/
def applySettingRow (cs : CodeSettings) (row : CoASetting) : CodeSettings :=
  if row.setting = SettingBlockInverted then { cs with blockInverted := row.value = "1" }
  else if row.setting = SettingEntryDirection then { cs with entryDirection := row.value }
  else cs

/-- Resolved settings for a code: defaults overlaid by that code's rows
(`SELECT setting, value FROM coa_settings WHERE code = ?`). -/
def resolveCodeSettings (rows : List CoASetting) (code : Int) : CodeSettings :=
  (rows.filter (fun r => r.code = code)).foldl applySettingRow (DefaultCodeSettings code)

/-! ## Store state and the admission protocol (internal/store/transactions.go)

The SQLite database is modelled as lists of rows.  Timestamps are the stored
`YYYY-MM-DDTHH:MM:SS.fffZ` strings, which compare lexicographically.  The
store-level triggers of migrations.go that can fire during admission are
modelled where they act: trigger 5 (entry/account currency match) on each
entry insert, and trigger 1 (per-currency zero sum) on finalization; a
trigger abort is a storage error and rolls the unit of work back. -/

/-- Embeds `ledger.Entry` (request entries leave `id`, `transactionID` and
`createdAt` to be filled by the store). -/
structure Entry where
  id : Nat
  transactionID : String
  accountID : String
  amount : Int
  currency : String
  createdAt : String
  deriving DecidableEq, Repr

/-- A row of the `transactions` table. -/
structure StoredTxn where
  id : String
  description : String
  finalized : Bool
  deriving DecidableEq, Repr

/-- Embeds `ledger.Transaction` as submitted to `CreateTransaction`
(`PostedAt` does not interact with any verified claim and is omitted). -/
structure Transaction where
  id : String
  description : String
  entries : List Entry
  deriving DecidableEq, Repr

/-- The database state: the four tables and the entry autoincrement counter. -/
structure State where
  accounts : List Account
  transactions : List StoredTxn
  entries : List Entry
  settings : List CoASetting
  nextEntryID : Nat
  deriving DecidableEq, Repr

/-- EXACT signed sum of the given entries in one currency: the quantity the
SQL `SUM(amount) ... GROUP BY currency` of trigger 1 computes (SQLite raises
an error instead of wrapping when a 64-bit sum overflows). -/
def currencySum (entries : List Entry) (cur : String) : Int :=
  ((entries.filter (fun e => e.currency = cur)).map (fun e => e.amount)).sum

/-- One bucket of the `byCurrency` map in `Transaction.Validate`:
`byCurrency[e.Currency] += e.Amount` is Go `int64` addition, which WRAPS, so
the bucket holds the wrapped accumulation of the amounts. -/
def currencySumWrapped (entries : List Entry) (cur : String) : Int :=
  (entries.filter (fun e => e.currency = cur)).foldl
    (fun acc e => wrap64 (acc + e.amount)) 0

/-- The per-currency zero-sum test of trigger 1 (exact SQL sums): every
currency bucket of the entries sums to zero. -/
def entriesBalanced (entries : List Entry) : Bool :=
  entries.all (fun e => currencySum entries e.currency = 0)

/-- The closed error set of the admission protocol.  `storage` stands for a
store-level failure (primary-key conflict or trigger abort). -/
inductive AdmitError where
  | emptyDescription
  | tooFewEntries
  | unbalanced (currency : String)
  | accountNotFound (id : String)
  | entryDirectionViolation (id : String)
  | invertedBalance (id : String)
  | storage
  deriving DecidableEq, Repr

/-- The error kinds produced by pre-write validation (`Transaction.Validate`). -/
def isValidationError : AdmitError → Bool
  | .emptyDescription => true
  | .tooFewEntries => true
  | .unbalanced _ => true
  | _ => false

/-- Embeds `(*Transaction).Validate` from internal/ledger/transaction.go:
description non-empty, at least 2 entries, and every `byCurrency` bucket —
accumulated with WRAPPING `int64` addition, hence `currencySumWrapped` —
equal to zero. -/
def Transaction.Validate (t : Transaction) : Option AdmitError :=
  if t.description = "" then some .emptyDescription
  else if t.entries.length < 2 then some .tooFewEntries
  else
    match t.entries.find?
        (fun e => !(currencySumWrapped t.entries e.currency = 0 : Bool)) with
    | some e => some (.unbalanced e.currency)
    | none => none

/-- `SELECT ... FROM accounts WHERE id = ?` (id is the primary key). -/
def lookupAccount (st : State) (id : String) : Option Account :=
  st.accounts.find? (fun a => a.id = id)

/-- The distinct account IDs referenced by the candidate's entries (the key
set of the `accountCodes` map; Go map iteration order is unspecified, so any
enumeration of the distinct IDs is faithful). -/
def distinctAccountIDs (entries : List Entry) : List String :=
  (entries.map (fun e => e.accountID)).dedup

/-- Step 3 of the protocol: resolve every referenced account; a missing
account is a fatal admission error. -/
def resolveAccounts (st : State) : List String → Except AdmitError (List (String × Account))
  | [] => .ok []
  | id :: rest =>
    match lookupAccount st id with
    | none => .error (.accountNotFound id)
    | some a =>
      match resolveAccounts st rest with
      | .error e => .error e
      | .ok l => .ok ((id, a) :: l)

/-- The per-entry direction test of step 6, with the settings resolved from
the entry's account code (values cached per code in Go; pure here). -/
def entryDirectionViolated (st : State) (e : Entry) : Bool :=
  match lookupAccount st e.accountID with
  | none => false
  | some a =>
    let cs := resolveCodeSettings st.settings a.code
    (cs.entryDirection = DirectionDebitOnly && e.amount < 0) ||
      (cs.entryDirection = DirectionCreditOnly && e.amount > 0)

/-- Trigger 5 of migrations.go, fired on each entry insert: the entry's
currency must match its account's currency unless the account's currency is
the wildcard `*`. -/
def entryCurrencyMismatch (st : State) (e : Entry) : Bool :=
  match lookupAccount st e.accountID with
  | none => false
  | some a => a.currency ≠ "*" && e.currency ≠ a.currency

/-- Step 6: for each entry in order, reject on a direction violation, then
insert — where trigger 5 may abort (a storage error).  Checks only read
state, so the walk is modelled before the state is materialised. -/
def entryLoopCheck (st : State) : List Entry → Option AdmitError
  | [] => none
  | e :: rest =>
    if entryDirectionViolated st e then some (.entryDirectionViolation e.accountID)
    else if entryCurrencyMismatch st e then some .storage
    else entryLoopCheck st rest

/-- `finalized` flag of the transaction owning an entry (false when the row
is missing, as in the SQL inner join). -/
def txnFinalized (st : State) (tid : String) : Bool :=
  match st.transactions.find? (fun t => t.id = tid) with
  | some t => t.finalized
  | none => false

/-- The account's current finalized balance (the `SELECT COALESCE(SUM(...))`
with an inner join on `t.finalized = 1` in step 7; the candidate's own rows
are inserted with `finalized = 0` and therefore excluded, so the pre-write
entries suffice). -/
def finalizedBalance (st : State) (accountID : String) : Int :=
  ((st.entries.filter
      (fun e => e.accountID = accountID && txnFinalized st e.transactionID)).map
    (fun e => e.amount)).sum

/-- The EXACT signed sum of the candidate transaction's entries on one
account: the Δ the spec's step 7 describes.  The program's `txnAmount`
accumulates this with WRAPPING `int64` addition — see `txnDeltaWrapped`. -/
def txnDelta (entries : List Entry) (accountID : String) : Int :=
  ((entries.filter (fun e => e.accountID = accountID)).map (fun e => e.amount)).sum

/-- Step 7's `txnAmount += e.Amount` loop: Go `int64` addition wraps at every
step, so the accumulated delta is the wrapped fold of the account's amounts. -/
def txnDeltaWrapped (entries : List Entry) (accountID : String) : Int :=
  (entries.filter (fun e => e.accountID = accountID)).foldl
    (fun acc e => wrap64 (acc + e.amount)) 0

/-- Step 7's per-account test: settings resolved from the account's code;
nothing to check unless `BlockInverted`; then the projected balance
`projected := existingBalance + txnAmount` — a wrapping `int64` addition of
the exact SQL balance and the wrapped delta — must not be negative for
debit-normal (assets/expenses) accounts nor positive for other accounts. -/
def invertedViolated (st : State) (entries : List Entry) (id : String) : Bool :=
  match lookupAccount st id with
  | none => false
  | some a =>
    let cs := resolveCodeSettings st.settings a.code
    if !cs.blockInverted then false
    else
      let projected := wrap64 (finalizedBalance st id + txnDeltaWrapped entries id)
      let isDebitNormal : Bool :=
        a.category = CategoryAssets || a.category = CategoryExpenses
      (isDebitNormal && projected < 0) || (!isDebitNormal && projected > 0)

/-- Step 7 over the distinct referenced accounts. -/
def firstInvertedViolation (st : State) (entries : List Entry) : Option String :=
  (distinctAccountIDs entries).find? (invertedViolated st entries)

/-- Materialise the inserted entry rows: ids from the autoincrement counter,
the owning transaction id, and the insert timestamp. -/
def numberEntries (start : Nat) (tid now : String) : List Entry → List Entry
  | [] => []
  | e :: rest =>
    { e with id := start, transactionID := tid, createdAt := now }
      :: numberEntries (start + 1) tid now rest

/-- The committed state: the transaction row (finalized after step 8) and the
entry rows appended, the autoincrement counter advanced. -/
def commitState (st : State) (txn : Transaction) (tid now : String) : State :=
  { st with
    transactions := st.transactions ++ [⟨tid, txn.description, true⟩]
    entries := st.entries ++ numberEntries st.nextEntryID tid now txn.entries
    nextEntryID := st.nextEntryID + txn.entries.length }

/-- The normalised transaction id of step 1: a fresh time-sortable identifier
when the submitted id is empty. -/
def normalizedID (txn : Transaction) (freshID : String) : String :=
  if txn.id = "" then freshID else txn.id

/-- Embeds `Store.CreateTransaction`: normalise and validate before any store
write; open the unit of work; insert the transaction row (a primary-key
conflict is a storage error); resolve accounts; walk the entries with the
direction check and trigger 5; run the BlockInverted projection; finalize
under trigger 1; commit.  Any failure returns the original state — the
`defer tx.Rollback()` discards the open unit of work, so no rows persist. -/
def createTransaction (st : State) (txn : Transaction) (freshID now : String) :
    State × Option AdmitError :=
  match Transaction.Validate txn with
  | some e => (st, some e)
  | none =>
    if (st.transactions.find? (fun t => t.id = normalizedID txn freshID)).isSome then
      (st, some .storage)
    else
      match resolveAccounts st (distinctAccountIDs txn.entries) with
      | .error e => (st, some e)
      | .ok _resolved =>
        match entryLoopCheck st txn.entries with
        | some e => (st, some e)
        | none =>
          match firstInvertedViolation st txn.entries with
          | some id => (st, some (.invertedBalance id))
          | none =>
            if entriesBalanced txn.entries then
              (commitState st txn (normalizedID txn freshID) now, none)
            else (st, some .storage)

/-! ## Helper lemmas for the decimal round trip (claim C9) -/

/-- The ten decimal digit characters. -/
def digitChars : List Char := ['0', '1', '2', '3', '4', '5', '6', '7', '8', '9']

/-- Continuation of the decimal string after the optional `.`:
nothing, or `.` followed by the fractional digits. -/
def fracSuffix : Option (List Char) → List Char
  | none => []
  | some fs => '.' :: fs

/-- The signed minor-unit value denoted by an optional sign and a natural
magnitude (`-` with magnitude `n` denotes `-n`; `+` or no sign denotes `n`). -/
def specSignedValue (sgn : List Char) (n : Nat) : Int :=
  if sgn = ['-'] then -(n : Int) else (n : Int)

/-- Facts about an individual decimal digit character. -/
theorem digitChar_facts {c : Char} (h : c ∈ digitChars) :
    c.isDigit = true ∧ c.isWhitespace = false ∧ c ≠ '.' ∧ c ≠ '-' ∧ c ≠ '+' ∧
      c.toNat - '0'.toNat ≤ 9 := by
  fin_cases h <;> refine ⟨rfl, rfl, by decide, by decide, by decide, by decide⟩

theorem dropWhile_eq_self_of {p : Char → Bool} {cs : List Char}
    (h : ∀ c ∈ cs, p c = false) : cs.dropWhile p = cs := by
  cases cs with
  | nil => rfl
  | cons a t =>
    rw [List.dropWhile_cons, h a (List.mem_cons_self a t)]
    simp

theorem trimSpace_eq_self {cs : List Char}
    (h : ∀ c ∈ cs, c.isWhitespace = false) : trimSpace cs = cs := by
  unfold trimSpace
  rw [dropWhile_eq_self_of h,
    dropWhile_eq_self_of (fun c hc => h c (List.mem_reverse.mp hc)),
    List.reverse_reverse]

theorem splitDot_no_dot {w : List Char} (h : ∀ c ∈ w, c ≠ '.') :
    splitDot w = (w, none) := by
  unfold splitDot
  have ht : w.takeWhile (fun c => !decide (c = '.')) = w :=
    List.takeWhile_eq_self_iff.mpr (fun c hc => by simpa using h c hc)
  simp [ht, List.drop_length]

theorem splitDot_dot {w : List Char} (f : List Char) (h : ∀ c ∈ w, c ≠ '.') :
    splitDot (w ++ '.' :: f) = (w, some f) := by
  unfold splitDot
  have ht : (w ++ '.' :: f).takeWhile (fun c => !decide (c = '.')) = w := by
    rw [List.takeWhile_append_of_pos (fun c hc => by simpa using h c hc)]
    simp [List.takeWhile_cons]
  have hd : (w ++ '.' :: f).drop w.length = '.' :: f := List.drop_left w ('.' :: f)
  simp [ht, hd]

theorem foldl_digits_acc (t : List Char) (a : Nat) :
    t.foldl (fun a c => a * 10 + (c.toNat - '0'.toNat)) a
      = a * 10 ^ t.length + digitsToNat t := by
  induction t generalizing a with
  | nil => simp [digitsToNat]
  | cons c t ih =>
    simp only [List.foldl_cons, List.length_cons]
    rw [ih (a * 10 + (c.toNat - '0'.toNat))]
    rw [show digitsToNat (c :: t)
        = (0 * 10 + (c.toNat - '0'.toNat)) * 10 ^ t.length + digitsToNat t
      from ih (0 * 10 + (c.toNat - '0'.toNat))]
    rw [pow_succ]
    ring

theorem digitsToNat_cons (c : Char) (t : List Char) :
    digitsToNat (c :: t) = (c.toNat - '0'.toNat) * 10 ^ t.length + digitsToNat t := by
  rw [show digitsToNat (c :: t)
      = (0 * 10 + (c.toNat - '0'.toNat)) * 10 ^ t.length + digitsToNat t
    from foldl_digits_acc t (0 * 10 + (c.toNat - '0'.toNat))]
  ring

theorem digitsToNat_lt {ds : List Char} (h : ∀ c ∈ ds, c ∈ digitChars) :
    digitsToNat ds < 10 ^ ds.length := by
  induction ds with
  | nil => simp [digitsToNat]
  | cons c t ih =>
    rw [digitsToNat_cons]
    have hd : c.toNat - '0'.toNat ≤ 9 :=
      (digitChar_facts (h c (List.mem_cons_self c t))).2.2.2.2.2
    have ht := ih (fun x hx => h x (List.mem_cons_of_mem c hx))
    simp only [List.length_cons, pow_succ]
    nlinarith

theorem digitsToNat_replicate_zero (n : Nat) :
    digitsToNat (List.replicate n '0') = 0 := by
  induction n with
  | zero => rfl
  | succ k ih =>
    rw [List.replicate_succ, digitsToNat_cons, ih]
    simp

theorem wrap64_eq_self {x : Int} (h1 : -(2 ^ 63) ≤ x) (h2 : x < 2 ^ 63) :
    wrap64 x = x := by
  unfold wrap64
  rw [Int.emod_eq_of_lt (by omega) (by omega)]
  omega

theorem parseInt64_digits {ds : List Char} (hne : ds ≠ [])
    (hd : ∀ c ∈ ds, c ∈ digitChars)
    (hb : (digitsToNat ds : Int) ≤ 2 ^ 63 - 1) :
    ParseInt64 ds = some ((digitsToNat ds : Int)) := by
  cases ds with
  | nil => exact absurd rfl hne
  | cons c t =>
    have hc := digitChar_facts (hd c (List.mem_cons_self c t))
    have hall : (c :: t).all Char.isDigit = true :=
      List.all_eq_true.mpr (fun x hx => (digitChar_facts (hd x hx)).1)
    have hpd : parseDigitRun (c :: t) = some (digitsToNat (c :: t)) := by
      unfold parseDigitRun
      rw [if_pos ⟨List.cons_ne_nil c t, hall⟩]
    simp only [ParseInt64]
    rw [if_neg hc.2.2.2.1, if_neg hc.2.2.2.2.1, hpd]
    simp only []
    rw [if_pos hb]

theorem padTruncFrac_length {f : List Char} {e : Nat} :
    (padTruncFrac f e).length = e := by
  unfold padTruncFrac
  rw [List.length_take, List.length_append, List.length_replicate]
  omega

theorem padTruncFrac_digits {f : List Char} {e : Nat}
    (hfd : ∀ c ∈ f, c ∈ digitChars) :
    ∀ c ∈ padTruncFrac f e, c ∈ digitChars := by
  intro c hc
  rcases List.mem_append.mp (List.mem_of_mem_take hc) with h | h
  · exact hfd c h
  · rw [List.eq_of_mem_replicate h]
    simp [digitChars]

/-- The arithmetic core computes exactly the canonical signed value when fed
a non-empty whole digit run and a fractional digit run, provided the value
fits in `int64`. -/
theorem parseMinorParts_digits (neg : Bool) (w f : List Char) (cur : CurrencyDef)
    (hw : w ≠ []) (hwd : ∀ c ∈ w, c ∈ digitChars) (hfd : ∀ c ∈ f, c ∈ digitChars)
    (hb : digitsToNat w * 10 ^ cur.Exponent + digitsToNat (padTruncFrac f cur.Exponent)
        ≤ 2 ^ 63 - 1) :
    parseMinorParts neg w f cur
      = .ok (if neg then
          -(((digitsToNat w * 10 ^ cur.Exponent
              + digitsToNat (padTruncFrac f cur.Exponent) : Nat)) : Int)
        else ((digitsToNat w * 10 ^ cur.Exponent
              + digitsToNat (padTruncFrac f cur.Exponent) : Nat) : Int)) := by
  have hWV : digitsToNat w ≤ digitsToNat w * 10 ^ cur.Exponent :=
    Nat.le_mul_of_pos_right _ (Nat.pos_pow_of_pos _ (by omega))
  have hWb : ((digitsToNat w : Nat) : Int) ≤ 2 ^ 63 - 1 := by
    have h0 : digitsToNat w ≤ 2 ^ 63 - 1 := le_trans (le_trans hWV (Nat.le_add_right _ _)) hb
    omega
  have hVb : ((digitsToNat w * 10 ^ cur.Exponent
      + digitsToNat (padTruncFrac f cur.Exponent) : Nat) : Int) ≤ 2 ^ 63 - 1 := by
    omega
  have hcast : ((digitsToNat w : Nat) : Int) * (10 : Int) ^ cur.Exponent
      = ((digitsToNat w * 10 ^ cur.Exponent : Nat) : Int) := by
    push_cast
    ring
  unfold parseMinorParts
  rw [parseInt64_digits hw hwd hWb]
  simp only []
  by_cases hcase : cur.Exponent > 0 ∧ f ≠ []
  · rw [if_pos hcase]
    have hne2 : padTruncFrac f cur.Exponent ≠ [] := by
      intro h0
      have hl := padTruncFrac_length (f := f) (e := cur.Exponent)
      rw [h0] at hl
      simp at hl
      omega
    have hFb : ((digitsToNat (padTruncFrac f cur.Exponent) : Nat) : Int) ≤ 2 ^ 63 - 1 := by
      have h0 : digitsToNat (padTruncFrac f cur.Exponent) ≤ 2 ^ 63 - 1 :=
        le_trans (Nat.le_add_left _ _) hb
      omega
    rw [parseInt64_digits hne2 (padTruncFrac_digits hfd) hFb]
    have h1 : wrap64 (((digitsToNat w : Nat) : Int) * (10 : Int) ^ cur.Exponent)
        = ((digitsToNat w * 10 ^ cur.Exponent : Nat) : Int) := by
      rw [hcast]
      exact wrap64_eq_self (by omega) (by omega)
    have h2 : wrap64 (((digitsToNat w * 10 ^ cur.Exponent : Nat) : Int)
        + ((digitsToNat (padTruncFrac f cur.Exponent) : Nat) : Int))
        = ((digitsToNat w * 10 ^ cur.Exponent
            + digitsToNat (padTruncFrac f cur.Exponent) : Nat) : Int) := by
      have hsum : ((digitsToNat w * 10 ^ cur.Exponent : Nat) : Int)
          + ((digitsToNat (padTruncFrac f cur.Exponent) : Nat) : Int)
          = ((digitsToNat w * 10 ^ cur.Exponent
              + digitsToNat (padTruncFrac f cur.Exponent) : Nat) : Int) := by
        push_cast
        ring
      rw [hsum]
      exact wrap64_eq_self (by omega) (by omega)
    show Except.ok (if neg = true
        then wrap64 (-(wrap64 (wrap64 (((digitsToNat w : Nat) : Int) * (10 : Int) ^ cur.Exponent)
          + ((digitsToNat (padTruncFrac f cur.Exponent) : Nat) : Int))))
        else wrap64 (wrap64 (((digitsToNat w : Nat) : Int) * (10 : Int) ^ cur.Exponent)
          + ((digitsToNat (padTruncFrac f cur.Exponent) : Nat) : Int))) = _
    rw [h1, h2]
    cases neg with
    | false => simp
    | true =>
      simp only [reduceIte]
      rw [wrap64_eq_self (by omega) (by omega)]
  · rw [if_neg hcase]
    have hF0 : digitsToNat (padTruncFrac f cur.Exponent) = 0 := by
      rcases Decidable.not_and_iff_or_not.mp hcase with h | h
      · have he : cur.Exponent = 0 := by omega
        rw [he]
        unfold padTruncFrac
        simp [digitsToNat]
      · have hf0 : f = [] := by
          by_contra hne3
          exact h hne3
        rw [hf0]
        unfold padTruncFrac
        simp only [List.nil_append, List.length_nil, Nat.sub_zero]
        rw [List.take_of_length_le (by simp)]
        exact digitsToNat_replicate_zero _
    rw [hF0] at hVb ⊢
    have h1 : wrap64 (((digitsToNat w : Nat) : Int) * (10 : Int) ^ cur.Exponent)
        = ((digitsToNat w * 10 ^ cur.Exponent + 0 : Nat) : Int) := by
      rw [hcast]
      simp only [Nat.add_zero]
      exact wrap64_eq_self (by omega) (by omega)
    show Except.ok (if neg = true
        then wrap64 (-(wrap64 (((digitsToNat w : Nat) : Int) * (10 : Int) ^ cur.Exponent)))
        else wrap64 (((digitsToNat w : Nat) : Int) * (10 : Int) ^ cur.Exponent)) = _
    rw [h1]
    cases neg with
    | false => simp
    | true =>
      simp only [reduceIte]
      rw [wrap64_eq_self (by omega) (by omega)]

theorem stripSign_of_shape (sgn : List Char) (d : Char) (t : List Char)
    (hs : sgn = [] ∨ sgn = ['-'] ∨ sgn = ['+']) (hd : d ∈ digitChars) :
    stripSign (sgn ++ d :: t) = ((decide (sgn = ['-']) : Bool), d :: t) := by
  have hfacts := digitChar_facts hd
  rcases hs with rfl | rfl | rfl
  · simp only [List.nil_append]
    show (if d = '-' then (true, t)
        else if d = '+' then (false, t) else (false, d :: t)) = _
    rw [if_neg hfacts.2.2.2.1, if_neg hfacts.2.2.2.2.1]
    simp
  · rfl
  · rfl

theorem wellFormed_no_ws (sgn w : List Char) (fOpt : Option (List Char))
    (hs : sgn = [] ∨ sgn = ['-'] ∨ sgn = ['+'])
    (hwd : ∀ ch ∈ w, ch ∈ digitChars)
    (hf : ∀ fs ∈ fOpt, ∀ ch ∈ fs, ch ∈ digitChars) :
    ∀ ch ∈ sgn ++ w ++ fracSuffix fOpt, ch.isWhitespace = false := by
  intro ch hch
  rcases List.mem_append.mp hch with h1 | h4
  · rcases List.mem_append.mp h1 with h2 | h3
    · rcases hs with rfl | rfl | rfl
      · simp at h2
      · rw [List.mem_singleton.mp h2]
        rfl
      · rw [List.mem_singleton.mp h2]
        rfl
    · exact (digitChar_facts (hwd ch h3)).2.1
  · cases fOpt with
    | none => simp [fracSuffix] at h4
    | some fs =>
      rcases List.mem_cons.mp h4 with rfl | h5
      · rfl
      · exact (digitChar_facts (hf fs rfl ch h5)).2.1

/-- Parsing a well-formed decimal string (optional sign, non-empty whole digit
run, optional `.` and fractional digit run) yields exactly the signed value
given by the whole digits scaled by `10^E` plus the fractional digits
right-padded or truncated to `E` places, whenever that value fits in `int64`. -/
theorem toMinorUnits_wellFormed
    (c : String) (cur : CurrencyDef) (hc : findCurrency c = some cur)
    (sgn w : List Char) (fOpt : Option (List Char))
    (hs : sgn = [] ∨ sgn = ['-'] ∨ sgn = ['+'])
    (hw : w ≠ []) (hwd : ∀ ch ∈ w, ch ∈ digitChars)
    (hf : ∀ fs ∈ fOpt, ∀ ch ∈ fs, ch ∈ digitChars)
    (hb : digitsToNat w * 10 ^ cur.Exponent
        + digitsToNat (padTruncFrac (fOpt.getD []) cur.Exponent) ≤ 2 ^ 63 - 1) :
    ToMinorUnits ⟨sgn ++ w ++ fracSuffix fOpt⟩ c
      = .ok (specSignedValue sgn (digitsToNat w * 10 ^ cur.Exponent
          + digitsToNat (padTruncFrac (fOpt.getD []) cur.Exponent))) := by
  obtain ⟨d, t, rfl⟩ : ∃ d t, w = d :: t := by
    cases w with
    | nil => exact absurd rfl hw
    | cons d t => exact ⟨d, t, rfl⟩
  have hdig : d ∈ digitChars := hwd d (List.mem_cons_self d t)
  unfold ToMinorUnits
  rw [hc]
  simp only []
  rw [show (String.mk (sgn ++ (d :: t) ++ fracSuffix fOpt)).toList
      = sgn ++ (d :: t) ++ fracSuffix fOpt from rfl]
  rw [trimSpace_eq_self (wellFormed_no_ws sgn (d :: t) fOpt hs hwd hf)]
  rw [show sgn ++ (d :: t) ++ fracSuffix fOpt = sgn ++ (d :: (t ++ fracSuffix fOpt)) by simp]
  rw [stripSign_of_shape sgn d (t ++ fracSuffix fOpt) hs hdig]
  simp only []
  have hnd : ∀ ch ∈ d :: t, ch ≠ '.' := fun ch hch => (digitChar_facts (hwd ch hch)).2.2.1
  cases fOpt with
  | none =>
    rw [show d :: (t ++ fracSuffix none) = d :: t by simp [fracSuffix]]
    rw [splitDot_no_dot hnd]
    simp only [Option.getD_none]
    rw [parseMinorParts_digits _ (d :: t) [] cur (List.cons_ne_nil d t) hwd
      (by intro x hx; simp at hx) (by simpa using hb)]
    simp [specSignedValue]
  | some fs =>
    rw [show d :: (t ++ fracSuffix (some fs)) = (d :: t) ++ '.' :: fs by simp [fracSuffix]]
    rw [splitDot_dot fs hnd]
    simp only [Option.getD_some]
    rw [parseMinorParts_digits _ (d :: t) fs cur (List.cons_ne_nil d t) hwd
      (hf fs rfl) (by simpa using hb)]
    simp [specSignedValue]

theorem empty_string_append (s : String) : "" ++ s = s := by
  cases s with
  | mk data => show String.mk ([] ++ data) = String.mk data; simp

theorem intToString_ofNat (k : Nat) : intToString ((k : Nat) : Int) = Nat.repr k := by
  unfold intToString
  rw [if_neg (by omega)]
  rw [Int.toNat_ofNat]

/-- Formatting any in-range `int64` value produces exactly the canonical
decimal form for the currency's exponent. -/
theorem formatAmount_canonical (c : String) (cur : CurrencyDef)
    (hc : findCurrency c = some cur) (v : Int)
    (hlo : -(2 ^ 63) < v) (hhi : v < 2 ^ 63) :
    FormatAmount v c = canonicalMinorForm v cur.Exponent := by
  have hpow : (10 : Int) ^ cur.Exponent = ((10 ^ cur.Exponent : Nat) : Int) := by
    push_cast
    ring
  unfold FormatAmount canonicalMinorForm
  rw [hc]
  simp only []
  by_cases hE : cur.Exponent = 0
  · rw [if_pos hE, if_pos hE]
    unfold intToString
    by_cases hv : v < 0
    · rw [if_pos hv, if_pos hv]
      rw [show (-v).toNat = v.natAbs by omega]
    · rw [if_neg hv, if_neg hv, empty_string_append]
      rw [show v.toNat = v.natAbs by omega]
  · rw [if_neg hE, if_neg hE]
    by_cases hv : v < 0
    · rw [if_pos hv, if_pos hv]
      have hamt : wrap64 (-v) = ((v.natAbs : Nat) : Int) := by
        rw [wrap64_eq_self (by omega) (by omega)]
        omega
      rw [hamt, hpow]
      rw [show ((v.natAbs : Nat) : Int).tdiv ((10 ^ cur.Exponent : Nat) : Int)
          = ((v.natAbs / 10 ^ cur.Exponent : Nat) : Int) from (Int.ofNat_tdiv _ _).symm]
      rw [show ((v.natAbs : Nat) : Int).tmod ((10 ^ cur.Exponent : Nat) : Int)
          = ((v.natAbs % 10 ^ cur.Exponent : Nat) : Int) from (Int.ofNat_tmod _ _).symm]
      rw [intToString_ofNat, intToString_ofNat]
    · rw [if_neg hv, if_neg hv]
      have hamt : v = ((v.natAbs : Nat) : Int) := by omega
      rw [hamt, hpow]
      rw [show ((v.natAbs : Nat) : Int).tdiv ((10 ^ cur.Exponent : Nat) : Int)
          = ((v.natAbs / 10 ^ cur.Exponent : Nat) : Int) from (Int.ofNat_tdiv _ _).symm]
      rw [show ((v.natAbs : Nat) : Int).tmod ((10 ^ cur.Exponent : Nat) : Int)
          = ((v.natAbs % 10 ^ cur.Exponent : Nat) : Int) from (Int.ofNat_tmod _ _).symm]
      rw [intToString_ofNat, intToString_ofNat]
      simp only [Int.natAbs_ofNat, empty_string_append]

theorem specSignedValue_bounds (sgn : List Char) (n : Nat) (h : n ≤ 2 ^ 63 - 1) :
    -(2 ^ 63) < specSignedValue sgn n ∧ specSignedValue sgn n < 2 ^ 63 := by
  unfold specSignedValue
  split <;> omega

/-! ## Theorems on account validation (claims C4, C5, C7) -/

/-- C4: contrary to the claim, `Account.Validate` accepts the wildcard
currency `*` on an ordinary (non-system, non-FX-intermediary) account: the
currency check `a.Currency != "*" && !ValidCurrency(a.Currency)` exempts `*`
for every account, so the failing input below — a plain asset account with
currency `*` — is accepted although it is not the `~fx` intermediary. -/
theorem wildcard_currency_accepted_for_non_fx_account :
    Account.Validate ⟨"acct1", "Some Asset", 1020, CategoryAssets, "*", false⟩ = none ∧
    (Account.mk "acct1" "Some Asset" 1020 CategoryAssets "*" false).currency = "*" ∧
    (Account.mk "acct1" "Some Asset" 1020 CategoryAssets "*" false).id ≠ "~fx" ∧
    (Account.mk "acct1" "Some Asset" 1020 CategoryAssets "*" false).isSystem = false := by
  decide

/-- C5 counterexample: an `is_system` account whose code 9999 lies outside
1000–5999 (hence also mismatches its declared category) passes
`Account.Validate`, because validation returns early for system accounts. -/
theorem system_account_skips_code_checks :
    Account.Validate ⟨"~weird", "Weird", 9999, CategoryAssets, "USD", true⟩ = none ∧
    ¬ (1000 ≤ (9999 : Int) ∧ (9999 : Int) ≤ 5999) := by
  decide

/-- C5 (amended): for every account accepted by `Account.Validate` that is
NOT flagged `is_system`, the code lies in 1000–5999 and the thousand-range
category derived by `CategoryForCode` equals the declared category. -/
theorem validate_nonsystem_code_matches_category (a : Account)
    (hok : a.Validate = none) (hsys : a.isSystem = false) :
    1000 ≤ a.code ∧ a.code ≤ 5999 ∧ CategoryForCode a.code = .ok a.category := by
  unfold Account.Validate at hok
  rw [hsys] at hok
  simp only [Bool.false_and, Bool.not_false, Bool.true_and, Bool.false_eq_true,
    if_false] at hok
  split at hok
  · simp at hok
  · split at hok
    · simp at hok
    · split at hok
      · simp at hok
      · rename_i hrange
        push_neg at hrange
        refine ⟨hrange.1, hrange.2, ?_⟩
        split at hok
        · simp at hok
        · rename_i cat hcat
          split at hok
          · simp at hok
          · rename_i hne
            rw [hcat]
            simp only [ne_eq, not_not] at hne
            rw [hne]

/-- C5 amended-theorem witness at a concrete accepted non-system account. -/
theorem validate_nonsystem_code_matches_category_witness :
    Account.Validate ⟨"acct9", "Plain", 1020, CategoryAssets, "USD", false⟩ = none ∧
    (1000 ≤ (Account.mk "acct9" "Plain" 1020 CategoryAssets "USD" false).code ∧
     (Account.mk "acct9" "Plain" 1020 CategoryAssets "USD" false).code ≤ 5999 ∧
     CategoryForCode (Account.mk "acct9" "Plain" 1020 CategoryAssets "USD" false).code =
       .ok (Account.mk "acct9" "Plain" 1020 CategoryAssets "USD" false).category) :=
  ⟨by decide,
   validate_nonsystem_code_matches_category
     (Account.mk "acct9" "Plain" 1020 CategoryAssets "USD" false) (by decide) (by decide)⟩

/-- C6: the supported-currency table (`Currencies` in the source) does contain
USD, EUR and GBP with exponent 2, but it does NOT contain GEL — although the
repository's PRD lists GEL (exponent 2, the reporting currency) in the
supported-currency table — so `ToMinorUnits` on a well-formed decimal string
with currency `"GEL"` fails with the unknown-currency error. -/
theorem gel_missing_from_currency_table :
    findCurrency "GEL" = none ∧
    ToMinorUnits "10.50" "GEL" = .error .invalidCurrency ∧
    findCurrency "USD" = some ⟨"USD", "US Dollar", 2⟩ ∧
    findCurrency "EUR" = some ⟨"EUR", "Euro", 2⟩ ∧
    findCurrency "GBP" = some ⟨"GBP", "Pound Sterling", 2⟩ :=
  ⟨rfl, rfl, rfl, rfl, rfl⟩

/-- C9: for every supported currency and every well-formed decimal string —
optional `+`/`-` sign, a non-empty whole digit run, an optional `.` and
fractional digit run — whose value (fractional digits right-padded or
truncated to the currency's exponent) fits in `int64`, `ToMinorUnits` parses
the string to exactly that signed minor-unit value, and `FormatAmount` maps
that value back to the canonical decimal form for the currency's exponent
(e.g. `"10.5"` → `1050` → `"10.50"` for USD). -/
theorem toMinorUnits_formatAmount_round_trip
    (c : String) (cur : CurrencyDef) (hc : findCurrency c = some cur)
    (sgn w : List Char) (fOpt : Option (List Char))
    (hs : sgn = [] ∨ sgn = ['-'] ∨ sgn = ['+'])
    (hw : w ≠ []) (hwd : ∀ ch ∈ w, ch ∈ digitChars)
    (hf : ∀ fs ∈ fOpt, ∀ ch ∈ fs, ch ∈ digitChars)
    (hb : digitsToNat w * 10 ^ cur.Exponent
        + digitsToNat (padTruncFrac (fOpt.getD []) cur.Exponent) ≤ 2 ^ 63 - 1) :
    ToMinorUnits ⟨sgn ++ w ++ fracSuffix fOpt⟩ c
      = .ok (specSignedValue sgn (digitsToNat w * 10 ^ cur.Exponent
          + digitsToNat (padTruncFrac (fOpt.getD []) cur.Exponent)))
    ∧ FormatAmount (specSignedValue sgn (digitsToNat w * 10 ^ cur.Exponent
          + digitsToNat (padTruncFrac (fOpt.getD []) cur.Exponent))) c
      = canonicalMinorForm (specSignedValue sgn (digitsToNat w * 10 ^ cur.Exponent
          + digitsToNat (padTruncFrac (fOpt.getD []) cur.Exponent))) cur.Exponent := by
  refine ⟨toMinorUnits_wellFormed c cur hc sgn w fOpt hs hw hwd hf hb, ?_⟩
  have hbd := specSignedValue_bounds sgn _ hb
  exact formatAmount_canonical c cur hc _ hbd.1 hbd.2

/-- C9 witness: the spec's own example for USD, `"10.5"` → `1050` → `"10.50"`. -/
theorem toMinorUnits_formatAmount_round_trip_witness :
    ToMinorUnits "10.5" "USD" = .ok 1050 ∧ FormatAmount 1050 "USD" = "10.50" := by
  have h := toMinorUnits_formatAmount_round_trip "USD" ⟨"USD", "US Dollar", 2⟩ rfl
    [] ['1', '0'] (some ['5']) (Or.inl rfl) (by decide) (by decide) (by decide) (by decide)
  exact ⟨h.1, h.2⟩

/-- C7 counterexample: an account with code 1060 whose ID `reserves1` does not
match the correspondent form `<name:ccy>` is nevertheless accepted by
`Account.Validate`; `ValidateCorrespondentID` constrains only codes 1010
and 2010. -/
theorem code_1060_accepts_plain_id :
    Account.Validate ⟨"reserves1", "Reserves", 1060, CategoryAssets, "USD", false⟩ = none ∧
    nostroPatternMatch "reserves1".toList = false := by
  decide

/-- C7 (amended): the `<name:ccy>` / `>name:ccy<` ID-shape requirements apply
only to codes 1010 and 2010; every other code — 1060 in particular — passes
`ValidateCorrespondentID` with any ID. -/
theorem correspondent_id_only_1010_2010 (code : Int) (id : String)
    (h1 : code ≠ 1010) (h2 : code ≠ 2010) :
    ValidateCorrespondentID code id = none := by
  unfold ValidateCorrespondentID
  rw [if_neg h1, if_neg h2]

/-- C7 amended-theorem witness at code 1060 with a non-correspondent ID. -/
theorem correspondent_id_only_1010_2010_witness :
    ValidateCorrespondentID 1060 "reserves1" = none :=
  correspondent_id_only_1010_2010 1060 "reserves1" (by decide) (by decide)

/-! ## Admission-protocol lemmas and theorems (claims C1, C2, C3) -/

theorem currencySum_of_absent {entries : List Entry} {cur : String}
    (h : ∀ e ∈ entries, e.currency ≠ cur) : currencySum entries cur = 0 := by
  unfold currencySum
  rw [List.filter_eq_nil_iff.mpr (fun e he => by simpa using h e he)]
  rfl

theorem exists_entry_of_currencySum_ne {entries : List Entry} {cur : String}
    (h : currencySum entries cur ≠ 0) : ∃ e ∈ entries, e.currency = cur := by
  by_contra h2
  push_neg at h2
  exact h (currencySum_of_absent h2)

theorem currencySumWrapped_of_absent {entries : List Entry} {cur : String}
    (h : ∀ e ∈ entries, e.currency ≠ cur) : currencySumWrapped entries cur = 0 := by
  unfold currencySumWrapped
  rw [List.filter_eq_nil_iff.mpr (fun e he => by simpa using h e he)]
  rfl

theorem exists_entry_of_currencySumWrapped_ne {entries : List Entry} {cur : String}
    (h : currencySumWrapped entries cur ≠ 0) : ∃ e ∈ entries, e.currency = cur := by
  by_contra h2
  push_neg at h2
  exact h (currencySumWrapped_of_absent h2)

theorem validate_eq_none_iff (t : Transaction) :
    Transaction.Validate t = none ↔
      (t.description ≠ "" ∧ 2 ≤ t.entries.length ∧
        ∀ cur, currencySumWrapped t.entries cur = 0) := by
  unfold Transaction.Validate
  constructor
  · intro h
    by_cases hd : t.description = ""
    · rw [if_pos hd] at h
      simp at h
    · rw [if_neg hd] at h
      by_cases hl : t.entries.length < 2
      · rw [if_pos hl] at h
        simp at h
      · rw [if_neg hl] at h
        refine ⟨hd, by omega, ?_⟩
        intro cur
        cases hfind : t.entries.find?
            (fun e => !(currencySumWrapped t.entries e.currency = 0 : Bool)) with
        | some e =>
          rw [hfind] at h
          simp at h
        | none =>
          have hall := List.find?_eq_none.mp hfind
          by_cases hmem : ∃ e ∈ t.entries, e.currency = cur
          · obtain ⟨e, hme, hec⟩ := hmem
            have := hall e hme
            simp at this
            rw [← hec]
            exact this
          · push_neg at hmem
            exact currencySumWrapped_of_absent hmem
  · intro ⟨h1, h2, h3⟩
    rw [if_neg h1, if_neg (by omega)]
    have hnone : t.entries.find?
        (fun e => !(currencySumWrapped t.entries e.currency = 0 : Bool)) = none :=
      List.find?_eq_none.mpr (fun e _ => by simp [h3 e.currency])
    rw [hnone]

theorem validate_violation (t : Transaction)
    (h : t.description = "" ∨ t.entries.length < 2 ∨
      ∃ cur, currencySumWrapped t.entries cur ≠ 0) :
    ∃ e, Transaction.Validate t = some e ∧ isValidationError e = true := by
  unfold Transaction.Validate
  by_cases hd : t.description = ""
  · exact ⟨.emptyDescription, by rw [if_pos hd], rfl⟩
  · rw [if_neg hd]
    by_cases hl : t.entries.length < 2
    · exact ⟨.tooFewEntries, by rw [if_pos hl], rfl⟩
    · rw [if_neg hl]
      obtain ⟨cur, hcur⟩ : ∃ cur, currencySumWrapped t.entries cur ≠ 0 := by
        rcases h with h | h | h
        · exact absurd h hd
        · exact absurd h hl
        · exact h
      obtain ⟨e, hme, hec⟩ := exists_entry_of_currencySumWrapped_ne hcur
      have hsome : (t.entries.find?
          (fun e => !(currencySumWrapped t.entries e.currency = 0 : Bool))).isSome := by
        rw [List.find?_isSome]
        exact ⟨e, hme, by simp [hec, hcur]⟩
      obtain ⟨e', he'⟩ := Option.isSome_iff_exists.mp hsome
      rw [he']
      exact ⟨.unbalanced e'.currency, rfl, rfl⟩

theorem entriesBalanced_sums {entries : List Entry}
    (h : entriesBalanced entries = true) : ∀ cur, currencySum entries cur = 0 := by
  intro cur
  by_cases hmem : ∃ e ∈ entries, e.currency = cur
  · obtain ⟨e, hme, hec⟩ := hmem
    unfold entriesBalanced at h
    have := List.all_eq_true.mp h e hme
    simp at this
    rw [← hec]
    exact this
  · push_neg at hmem
    exact currencySum_of_absent hmem

theorem createTransaction_rollback (st : State) (txn : Transaction)
    (freshID now : String) :
    (createTransaction st txn freshID now).1 = st ∨
      (createTransaction st txn freshID now).2 = none := by
  unfold createTransaction
  cases hv : Transaction.Validate txn with
  | some e => exact Or.inl rfl
  | none =>
    simp only []
    by_cases hf : (st.transactions.find?
        (fun t => t.id = normalizedID txn freshID)).isSome
    · rw [if_pos hf]
      exact Or.inl rfl
    · rw [if_neg hf]
      cases hr : resolveAccounts st (distinctAccountIDs txn.entries) with
      | error e2 => exact Or.inl rfl
      | ok l =>
        simp only []
        cases hl : entryLoopCheck st txn.entries with
        | some e3 => exact Or.inl rfl
        | none =>
          simp only []
          cases hi : firstInvertedViolation st txn.entries with
          | some id => exact Or.inl rfl
          | none =>
            simp only []
            by_cases hb : entriesBalanced txn.entries = true
            · rw [if_pos hb]
              exact Or.inr rfl
            · rw [if_neg hb]
              exact Or.inl rfl

theorem createTransaction_ok_balanced (st : State) (txn : Transaction)
    (freshID now : String)
    (h : (createTransaction st txn freshID now).2 = none) :
    entriesBalanced txn.entries = true := by
  unfold createTransaction at h
  cases hv : Transaction.Validate txn with
  | some e =>
    rw [hv] at h
    simp at h
  | none =>
    rw [hv] at h
    simp only [] at h
    by_cases hf : (st.transactions.find?
        (fun t => t.id = normalizedID txn freshID)).isSome
    · rw [if_pos hf] at h
      simp at h
    · rw [if_neg hf] at h
      cases hr : resolveAccounts st (distinctAccountIDs txn.entries) with
      | error e2 =>
        rw [hr] at h
        simp at h
      | ok l =>
        rw [hr] at h
        simp only [] at h
        cases hl : entryLoopCheck st txn.entries with
        | some e3 =>
          rw [hl] at h
          simp at h
        | none =>
          rw [hl] at h
          simp only [] at h
          cases hi : firstInvertedViolation st txn.entries with
          | some i =>
            rw [hi] at h
            simp at h
          | none =>
            rw [hi] at h
            simp only [] at h
            by_cases hb : entriesBalanced txn.entries = true
            · exact hb
            · rw [if_neg hb] at h
              simp at h

/-- C1 counterexample: a candidate with two `-2^63` USD entries has exact
USD sum `-2^64 ≠ 0`, but Go's `byCurrency` accumulation wraps it to 0, so
`Transaction.Validate` passes, the store write is opened, and the admission
is rejected only at finalize by trigger 1 with a STORAGE error — not, as the
claim states, before the write with a validation error. -/
theorem exact_unbalance_not_rejected_prewrite :
    Transaction.Validate
        ⟨"", "wrap", [⟨0, "", "a1", -(2 ^ 63), "USD", ""⟩,
          ⟨0, "", "l1", -(2 ^ 63), "USD", ""⟩]⟩ = none ∧
    currencySum [(⟨0, "", "a1", -(2 ^ 63), "USD", ""⟩ : Entry),
        ⟨0, "", "l1", -(2 ^ 63), "USD", ""⟩] "USD" ≠ 0 ∧
    createTransaction
        ⟨[⟨"a1", "Cash", 1020, "assets", "USD", false⟩,
          ⟨"l1", "Customer", 2020, "liabilities", "USD", false⟩], [], [], [], 1⟩
        ⟨"", "wrap", [⟨0, "", "a1", -(2 ^ 63), "USD", ""⟩,
          ⟨0, "", "l1", -(2 ^ 63), "USD", ""⟩]⟩
        "t1" "2024-01-01T00:00:00.000Z"
      = (⟨[⟨"a1", "Cash", 1020, "assets", "USD", false⟩,
          ⟨"l1", "Customer", 2020, "liabilities", "USD", false⟩], [], [], [], 1⟩,
        some AdmitError.storage) ∧
    isValidationError AdmitError.storage = false := by
  decide

/-- C1 (amended): the admission succeeds only when the candidate has a
non-empty description, at least 2 entries, and EXACT per-currency zero sums
(the trigger-1 backstop enforces the exact sums); a candidate with an empty
description, fewer than 2 entries, or a nonzero WRAPPED `int64` per-currency
sum is rejected by `Transaction.Validate` with a validation-kind error before
the store write opens; and every candidate with a nonzero exact per-currency
sum is rejected — by the pre-write check when the wrapped sum is nonzero,
otherwise by the trigger inside the write — with the state unchanged. -/
theorem createTransaction_validates (st : State) (txn : Transaction)
    (freshID now : String) :
    ((createTransaction st txn freshID now).2 = none →
        txn.description ≠ "" ∧ 2 ≤ txn.entries.length ∧
          ∀ cur, currencySum txn.entries cur = 0)
    ∧ ((txn.description = "" ∨ txn.entries.length < 2 ∨
          ∃ cur, currencySumWrapped txn.entries cur ≠ 0) →
        ∃ e, createTransaction st txn freshID now = (st, some e) ∧
          isValidationError e = true)
    ∧ ((∃ cur, currencySum txn.entries cur ≠ 0) →
        ∃ e, createTransaction st txn freshID now = (st, some e)) := by
  refine ⟨?_, ?_, ?_⟩
  · intro hok
    have hv : Transaction.Validate txn = none := by
      by_contra hv
      obtain ⟨e, he⟩ := Option.ne_none_iff_exists.mp hv
      unfold createTransaction at hok
      rw [← he] at hok
      simp at hok
    obtain ⟨hd, hl, _⟩ := (validate_eq_none_iff txn).mp hv
    exact ⟨hd, hl,
      entriesBalanced_sums (createTransaction_ok_balanced st txn freshID now hok)⟩
  · intro hbad
    obtain ⟨e, he, hkind⟩ := validate_violation txn hbad
    refine ⟨e, ?_, hkind⟩
    unfold createTransaction
    rw [he]
  · intro hbad
    cases hres : (createTransaction st txn freshID now).2 with
    | none =>
      obtain ⟨cur, hcur⟩ := hbad
      exact absurd
        (entriesBalanced_sums (createTransaction_ok_balanced st txn freshID now hres) cur)
        hcur
    | some e =>
      have h1 : (createTransaction st txn freshID now).1 = st := by
        rcases createTransaction_rollback st txn freshID now with h | h
        · exact h
        · rw [hres] at h
          exact absurd h (by simp)
      have hpair : createTransaction st txn freshID now
          = ((createTransaction st txn freshID now).1,
             (createTransaction st txn freshID now).2) := rfl
      rw [h1, hres] at hpair
      exact ⟨e, hpair⟩

/-- C1 witness: a balanced two-entry deposit is admitted, and the theorem
yields its validity. -/
theorem createTransaction_validates_witness :
    (createTransaction
        ⟨[⟨"a1", "Cash", 1020, "assets", "USD", false⟩,
          ⟨"l1", "Customer", 2020, "liabilities", "USD", false⟩], [], [], [], 1⟩
        ⟨"", "deposit", [⟨0, "", "a1", 100, "USD", ""⟩, ⟨0, "", "l1", -100, "USD", ""⟩]⟩
        "t1" "2024-01-01T00:00:00.000Z").2 = none ∧
      ((Transaction.mk "" "deposit"
          [⟨0, "", "a1", 100, "USD", ""⟩, ⟨0, "", "l1", -100, "USD", ""⟩]).description ≠ "" ∧
        2 ≤ (Transaction.mk "" "deposit"
          [⟨0, "", "a1", 100, "USD", ""⟩, ⟨0, "", "l1", -100, "USD", ""⟩]).entries.length ∧
        ∀ cur, currencySum (Transaction.mk "" "deposit"
          [⟨0, "", "a1", 100, "USD", ""⟩, ⟨0, "", "l1", -100, "USD", ""⟩]).entries cur = 0) :=
  ⟨by decide,
   (createTransaction_validates
      ⟨[⟨"a1", "Cash", 1020, "assets", "USD", false⟩,
        ⟨"l1", "Customer", 2020, "liabilities", "USD", false⟩], [], [], [], 1⟩
      ⟨"", "deposit", [⟨0, "", "a1", 100, "USD", ""⟩, ⟨0, "", "l1", -100, "USD", ""⟩]⟩
      "t1" "2024-01-01T00:00:00.000Z").1 (by decide)⟩

theorem mem_distinctAccountIDs {entries : List Entry} {id : String} :
    id ∈ distinctAccountIDs entries ↔ ∃ e ∈ entries, e.accountID = id := by
  unfold distinctAccountIDs
  rw [List.mem_dedup, List.mem_map]

theorem resolveAccounts_ok (st : State) (ids : List String)
    (h : ∀ id ∈ ids, (lookupAccount st id).isSome) :
    ∃ l, resolveAccounts st ids = .ok l := by
  induction ids with
  | nil => exact ⟨[], rfl⟩
  | cons id rest ih =>
    obtain ⟨a, ha⟩ := Option.isSome_iff_exists.mp (h id (List.mem_cons_self id rest))
    obtain ⟨l, hl⟩ := ih (fun x hx => h x (List.mem_cons_of_mem id hx))
    refine ⟨(id, a) :: l, ?_⟩
    unfold resolveAccounts
    rw [ha, hl]

theorem entriesBalanced_of_sums {entries : List Entry}
    (h : ∀ cur, currencySum entries cur = 0) : entriesBalanced entries = true := by
  unfold entriesBalanced
  rw [List.all_eq_true]
  intro e _
  simp [h e.currency]

theorem entryDirectionViolated_iff (st : State) (e : Entry) :
    entryDirectionViolated st e = true ↔
      ∃ a, lookupAccount st e.accountID = some a ∧
        ((resolveCodeSettings st.settings a.code).entryDirection = DirectionDebitOnly ∧
            e.amount < 0 ∨
          (resolveCodeSettings st.settings a.code).entryDirection = DirectionCreditOnly ∧
            e.amount > 0) := by
  unfold entryDirectionViolated
  cases hla : lookupAccount st e.accountID with
  | none => simp
  | some a => simp

theorem entryLoopCheck_cases (st : State) (l : List Entry)
    (hcur : ∀ e ∈ l, entryCurrencyMismatch st e = false) :
    (entryLoopCheck st l = none ∧ ∀ e ∈ l, entryDirectionViolated st e = false)
    ∨ (∃ e ∈ l, entryLoopCheck st l = some (.entryDirectionViolation e.accountID) ∧
        entryDirectionViolated st e = true) := by
  induction l with
  | nil => exact Or.inl ⟨rfl, by simp⟩
  | cons e rest ih =>
    by_cases hd : entryDirectionViolated st e = true
    · refine Or.inr ⟨e, List.mem_cons_self e rest, ?_, hd⟩
      unfold entryLoopCheck
      rw [if_pos hd]
    · have hd' : entryDirectionViolated st e = false := by
        revert hd
        cases entryDirectionViolated st e <;> simp
      have hm : entryCurrencyMismatch st e = false :=
        hcur e (List.mem_cons_self e rest)
      have hstep : entryLoopCheck st (e :: rest) = entryLoopCheck st rest := by
        simp only [entryLoopCheck]
        rw [if_neg (by simp [hd']), if_neg (by simp [hm])]
      rcases ih (fun x hx => hcur x (List.mem_cons_of_mem e hx)) with ⟨h1, h2⟩ | ⟨e', he', h1, h2⟩
      · refine Or.inl ⟨by rw [hstep, h1], ?_⟩
        intro x hx
        rcases List.mem_cons.mp hx with rfl | hx2
        · exact hd'
        · exact h2 x hx2
      · exact Or.inr ⟨e', List.mem_cons_of_mem e he', by rw [hstep]; exact h1, h2⟩

/-- C3 counterexample: with every referenced account existing and
normalization passing, an entry whose currency mismatches its account
(store trigger 5) aborts the admission with a storage error BEFORE the later
direction-violating entry is examined, so the claimed "fails with an
entry-direction violation iff some entry violates its direction setting" is
false as stated: here the right-hand side holds but admission fails with a
storage error instead. -/
theorem direction_iff_broken_by_currency_trigger :
    (createTransaction
        ⟨[⟨"a1", "Cash", 1020, "assets", "USD", false⟩,
          ⟨"l1", "Customer", 2020, "liabilities", "USD", false⟩],
         [], [], [⟨1020, "ENTRY_DIRECTION", "DEBIT_ONLY"⟩], 1⟩
        ⟨"", "fx", [⟨0, "", "l1", 5, "EUR", ""⟩, ⟨0, "", "a1", -5, "EUR", ""⟩]⟩
        "t1" "2024-01-01T00:00:00.000Z").2 = some .storage ∧
    (∃ e ∈ [(⟨0, "", "l1", 5, "EUR", ""⟩ : Entry), ⟨0, "", "a1", -5, "EUR", ""⟩],
      entryDirectionViolated
        ⟨[⟨"a1", "Cash", 1020, "assets", "USD", false⟩,
          ⟨"l1", "Customer", 2020, "liabilities", "USD", false⟩],
         [], [], [⟨1020, "ENTRY_DIRECTION", "DEBIT_ONLY"⟩], 1⟩ e = true) ∧
    Transaction.Validate
      ⟨"", "fx", [⟨0, "", "l1", 5, "EUR", ""⟩, ⟨0, "", "a1", -5, "EUR", ""⟩]⟩ = none ∧
    (∀ e ∈ [(⟨0, "", "l1", 5, "EUR", ""⟩ : Entry), ⟨0, "", "a1", -5, "EUR", ""⟩],
      (lookupAccount
        ⟨[⟨"a1", "Cash", 1020, "assets", "USD", false⟩,
          ⟨"l1", "Customer", 2020, "liabilities", "USD", false⟩],
         [], [], [⟨1020, "ENTRY_DIRECTION", "DEBIT_ONLY"⟩], 1⟩ e.accountID).isSome) := by
  refine ⟨by decide, ⟨⟨0, "", "a1", -5, "EUR", ""⟩, by decide, by decide⟩, by decide, by decide⟩

/-- C3 (amended): given that every referenced account exists, normalization
passes, the transaction id does not collide with a stored row, and every
entry passes the store's currency-match trigger, the admission fails with an
entry-direction violation if and only if some individual entry's resolved
EntryDirection setting is DEBIT_ONLY with a negative amount or CREDIT_ONLY
with a positive amount; and on every failed admission the state is unchanged
(no rows persist). -/
theorem entryDirection_rejection_iff (st : State) (txn : Transaction)
    (freshID now : String)
    (hval : Transaction.Validate txn = none)
    (hfresh : st.transactions.find? (fun t => t.id = normalizedID txn freshID) = none)
    (hacc : ∀ e ∈ txn.entries, (lookupAccount st e.accountID).isSome)
    (hcur : ∀ e ∈ txn.entries, entryCurrencyMismatch st e = false) :
    ((∃ id, (createTransaction st txn freshID now).2 = some (.entryDirectionViolation id))
      ↔ ∃ e ∈ txn.entries, ∃ a, lookupAccount st e.accountID = some a ∧
          ((resolveCodeSettings st.settings a.code).entryDirection = DirectionDebitOnly ∧
              e.amount < 0 ∨
            (resolveCodeSettings st.settings a.code).entryDirection = DirectionCreditOnly ∧
              e.amount > 0))
    ∧ (∀ err, (createTransaction st txn freshID now).2 = some err →
        (createTransaction st txn freshID now).1 = st) := by
  have hrollback : ∀ err, (createTransaction st txn freshID now).2 = some err →
      (createTransaction st txn freshID now).1 = st := by
    intro err herr
    rcases createTransaction_rollback st txn freshID now with h | h
    · exact h
    · rw [herr] at h
      exact absurd h (by simp)
  refine ⟨?_, hrollback⟩
  have hres : ∃ l, resolveAccounts st (distinctAccountIDs txn.entries) = .ok l := by
    refine resolveAccounts_ok st _ (fun id hid => ?_)
    obtain ⟨e, he, rfl⟩ := mem_distinctAccountIDs.mp hid
    exact hacc e he
  obtain ⟨l, hl⟩ := hres
  have hred : (createTransaction st txn freshID now).2
      = (match entryLoopCheck st txn.entries with
         | some e => (st, some e)
         | none =>
           match firstInvertedViolation st txn.entries with
           | some id => (st, some (.invertedBalance id))
           | none =>
             if entriesBalanced txn.entries then
               (commitState st txn (normalizedID txn freshID) now, none)
             else (st, some .storage)).2 := by
    unfold createTransaction
    rw [hval]
    simp only []
    rw [if_neg (by rw [hfresh]; simp), hl]
  rcases entryLoopCheck_cases st txn.entries hcur with ⟨hnone, hall⟩ | ⟨e, he, hsome, hviol⟩
  · rw [hnone] at hred
    constructor
    · intro ⟨id, hid⟩
      rw [hred] at hid
      exfalso
      cases hi : firstInvertedViolation st txn.entries with
      | some i =>
        rw [hi] at hid
        simp at hid
      | none =>
        rw [hi] at hid
        simp only [] at hid
        by_cases hb : entriesBalanced txn.entries = true
        · rw [if_pos hb] at hid
          simp at hid
        · rw [if_neg hb] at hid
          simp at hid
    · intro ⟨e, he, hcl⟩
      exact absurd ((entryDirectionViolated_iff st e).mpr hcl)
        (by simp [hall e he])
  · rw [hsome] at hred
    constructor
    · intro _
      exact ⟨e, he, (entryDirectionViolated_iff st e).mp hviol⟩
    · intro _
      exact ⟨e.accountID, by rw [hred]⟩

/-- C3 witness: the amended theorem applied to a state where the only entry
on a DEBIT_ONLY code is negative, exhibiting the direction rejection. -/
theorem entryDirection_rejection_iff_witness :
    ∃ e ∈ [(⟨0, "", "a1", -5, "USD", ""⟩ : Entry), ⟨0, "", "l1", 5, "USD", ""⟩],
      ∃ a, lookupAccount
          ⟨[⟨"a1", "Cash", 1020, "assets", "USD", false⟩,
            ⟨"l1", "Customer", 2020, "liabilities", "USD", false⟩],
           [], [], [⟨1020, "ENTRY_DIRECTION", "DEBIT_ONLY"⟩], 1⟩ e.accountID = some a ∧
        ((resolveCodeSettings [⟨1020, "ENTRY_DIRECTION", "DEBIT_ONLY"⟩] a.code).entryDirection
            = DirectionDebitOnly ∧ e.amount < 0 ∨
          (resolveCodeSettings [⟨1020, "ENTRY_DIRECTION", "DEBIT_ONLY"⟩] a.code).entryDirection
            = DirectionCreditOnly ∧ e.amount > 0) :=
  ((entryDirection_rejection_iff
      ⟨[⟨"a1", "Cash", 1020, "assets", "USD", false⟩,
        ⟨"l1", "Customer", 2020, "liabilities", "USD", false⟩],
       [], [], [⟨1020, "ENTRY_DIRECTION", "DEBIT_ONLY"⟩], 1⟩
      ⟨"", "wd", [⟨0, "", "a1", -5, "USD", ""⟩, ⟨0, "", "l1", 5, "USD", ""⟩]⟩
      "t1" "2024-01-01T00:00:00.000Z" (by decide) (by decide) (by decide) (by decide)).1).mp
    ⟨"a1", by decide⟩

theorem invertedViolated_iff_claim (st : State) (entries : List Entry) (id : String)
    (hcat : ∀ a ∈ st.accounts, a.category ∈ AllCategories) :
    invertedViolated st entries id = true ↔
      ∃ a, lookupAccount st id = some a ∧
        (resolveCodeSettings st.settings a.code).blockInverted = true ∧
        (((a.category = CategoryAssets ∨ a.category = CategoryExpenses) ∧
            wrap64 (finalizedBalance st id + txnDeltaWrapped entries id) < 0) ∨
          ((a.category = CategoryLiabilities ∨ a.category = CategoryEquity ∨
              a.category = CategoryRevenue) ∧
            wrap64 (finalizedBalance st id + txnDeltaWrapped entries id) > 0)) := by
  unfold invertedViolated
  cases hla : lookupAccount st id with
  | none => simp
  | some a =>
    have hmem : a ∈ st.accounts := List.mem_of_find?_eq_some hla
    have hc5 := hcat a hmem
    simp only [AllCategories, List.mem_cons, List.mem_singleton,
      List.not_mem_nil, or_false] at hc5
    by_cases hbi : (resolveCodeSettings st.settings a.code).blockInverted = true
    · simp only [hbi, Bool.not_true, Bool.false_eq_true, if_false]
      rcases hc5 with h | h | h | h | h <;>
        simp [h, CategoryAssets, CategoryLiabilities, CategoryEquity,
          CategoryRevenue, CategoryExpenses, hbi]
    · have hbi' : (resolveCodeSettings st.settings a.code).blockInverted = false := by
        revert hbi
        cases (resolveCodeSettings st.settings a.code).blockInverted <;> simp
      simp [hbi']

set_option maxRecDepth 8000 in
/-- C2 counterexample: an exactly balanced candidate placing `+2^62` four
times and `-1` on a BlockInverted debit-normal account (offset on a second
account) has EXACT delta `2^64 - 1 > 0` — so the claim, which phrases the
projection with the exact signed sum Δ, says no inverted-balance rejection —
yet Go's `txnAmount` accumulation wraps the delta to `-1`, the projected
balance is `-1 < 0`, and the admission IS rejected with the inverted-balance
error. -/
theorem inverted_balance_delta_wraps :
    (createTransaction
        ⟨[⟨"a1", "Cash", 1020, "assets", "USD", false⟩,
          ⟨"l1", "Customer", 2020, "liabilities", "USD", false⟩],
         [], [], [⟨1020, "BLOCK_NORMAL_INVERTED", "1"⟩], 1⟩
        ⟨"", "big", [⟨0, "", "a1", 2 ^ 62, "USD", ""⟩, ⟨0, "", "a1", 2 ^ 62, "USD", ""⟩,
          ⟨0, "", "a1", 2 ^ 62, "USD", ""⟩, ⟨0, "", "a1", 2 ^ 62, "USD", ""⟩,
          ⟨0, "", "a1", -1, "USD", ""⟩, ⟨0, "", "l1", -(2 ^ 62), "USD", ""⟩,
          ⟨0, "", "l1", -(2 ^ 62), "USD", ""⟩, ⟨0, "", "l1", -(2 ^ 62), "USD", ""⟩,
          ⟨0, "", "l1", -(2 ^ 62), "USD", ""⟩, ⟨0, "", "l1", 1, "USD", ""⟩]⟩
        "t1" "2024-01-01T00:00:00.000Z").2 = some (.invertedBalance "a1") ∧
    finalizedBalance
        ⟨[⟨"a1", "Cash", 1020, "assets", "USD", false⟩,
          ⟨"l1", "Customer", 2020, "liabilities", "USD", false⟩],
         [], [], [⟨1020, "BLOCK_NORMAL_INVERTED", "1"⟩], 1⟩ "a1"
      + txnDelta [(⟨0, "", "a1", 2 ^ 62, "USD", ""⟩ : Entry), ⟨0, "", "a1", 2 ^ 62, "USD", ""⟩,
          ⟨0, "", "a1", 2 ^ 62, "USD", ""⟩, ⟨0, "", "a1", 2 ^ 62, "USD", ""⟩,
          ⟨0, "", "a1", -1, "USD", ""⟩, ⟨0, "", "l1", -(2 ^ 62), "USD", ""⟩,
          ⟨0, "", "l1", -(2 ^ 62), "USD", ""⟩, ⟨0, "", "l1", -(2 ^ 62), "USD", ""⟩,
          ⟨0, "", "l1", -(2 ^ 62), "USD", ""⟩, ⟨0, "", "l1", 1, "USD", ""⟩] "a1"
      = 2 ^ 64 - 1 ∧
    currencySum [(⟨0, "", "a1", 2 ^ 62, "USD", ""⟩ : Entry), ⟨0, "", "a1", 2 ^ 62, "USD", ""⟩,
        ⟨0, "", "a1", 2 ^ 62, "USD", ""⟩, ⟨0, "", "a1", 2 ^ 62, "USD", ""⟩,
        ⟨0, "", "a1", -1, "USD", ""⟩, ⟨0, "", "l1", -(2 ^ 62), "USD", ""⟩,
        ⟨0, "", "l1", -(2 ^ 62), "USD", ""⟩, ⟨0, "", "l1", -(2 ^ 62), "USD", ""⟩,
        ⟨0, "", "l1", -(2 ^ 62), "USD", ""⟩, ⟨0, "", "l1", 1, "USD", ""⟩] "USD" = 0 := by
  refine ⟨by decide, by decide, by decide⟩

/-- C2 (amended): once an admission reaches the BlockInverted stage
(normalization passed, no id collision, all referenced accounts exist with
valid categories and finalized balances within the `int64` range of the
balance query, and the per-entry stage raised nothing), it is rejected with
an inverted-balance violation if and only if some distinct referenced
account has `BlockInverted = true` and its projected balance — the account's
existing finalized balance plus the candidate's delta on that account,
ACCUMULATED AND ADDED WITH WRAPPING `int64` ARITHMETIC as the program
computes it — is negative for a debit-normal (assets/expenses) account or
positive for a credit-normal (liabilities/equity/revenue) one; a projected
balance of exactly zero is accepted. -/
theorem invertedBalance_rejection_iff (st : State) (txn : Transaction)
    (freshID now : String)
    (hval : Transaction.Validate txn = none)
    (hfresh : st.transactions.find? (fun t => t.id = normalizedID txn freshID) = none)
    (hacc : ∀ e ∈ txn.entries, (lookupAccount st e.accountID).isSome)
    (hdir : entryLoopCheck st txn.entries = none)
    (hcat : ∀ a ∈ st.accounts, a.category ∈ AllCategories)
    (_hbal : ∀ id ∈ distinctAccountIDs txn.entries,
      -(2 ^ 63) ≤ finalizedBalance st id ∧ finalizedBalance st id ≤ 2 ^ 63 - 1) :
    (∃ id, (createTransaction st txn freshID now).2 = some (.invertedBalance id))
      ↔ ∃ id ∈ distinctAccountIDs txn.entries, ∃ a, lookupAccount st id = some a ∧
          (resolveCodeSettings st.settings a.code).blockInverted = true ∧
          (((a.category = CategoryAssets ∨ a.category = CategoryExpenses) ∧
              wrap64 (finalizedBalance st id + txnDeltaWrapped txn.entries id) < 0) ∨
            ((a.category = CategoryLiabilities ∨ a.category = CategoryEquity ∨
                a.category = CategoryRevenue) ∧
              wrap64 (finalizedBalance st id + txnDeltaWrapped txn.entries id) > 0)) := by
  obtain ⟨l, hl⟩ : ∃ l, resolveAccounts st (distinctAccountIDs txn.entries) = .ok l := by
    refine resolveAccounts_ok st _ (fun id hid => ?_)
    obtain ⟨e, he, rfl⟩ := mem_distinctAccountIDs.mp hid
    exact hacc e he
  have hred : (createTransaction st txn freshID now).2
      = (match firstInvertedViolation st txn.entries with
         | some id => (st, (some (AdmitError.invertedBalance id) : Option AdmitError))
         | none =>
           if entriesBalanced txn.entries then
             (commitState st txn (normalizedID txn freshID) now, none)
           else (st, some .storage)).2 := by
    unfold createTransaction
    rw [hval]
    simp only []
    rw [if_neg (by rw [hfresh]; simp), hl]
    simp only []
    rw [hdir]
  constructor
  · intro ⟨id, hid⟩
    rw [hred] at hid
    cases hi : firstInvertedViolation st txn.entries with
    | some i =>
      have hv : invertedViolated st txn.entries i = true := List.find?_some hi
      have hmem : i ∈ distinctAccountIDs txn.entries := List.mem_of_find?_eq_some hi
      exact ⟨i, hmem, (invertedViolated_iff_claim st txn.entries i hcat).mp hv⟩
    | none =>
      exfalso
      rw [hi] at hid
      simp only [] at hid
      by_cases hb : entriesBalanced txn.entries = true
      · rw [if_pos hb] at hid
        simp at hid
      · rw [if_neg hb] at hid
        simp at hid
  · intro ⟨id, hmem, hclaim⟩
    have hv : invertedViolated st txn.entries id = true :=
      (invertedViolated_iff_claim st txn.entries id hcat).mpr hclaim
    have hsome : (firstInvertedViolation st txn.entries).isSome := by
      unfold firstInvertedViolation
      rw [List.find?_isSome]
      exact ⟨id, hmem, hv⟩
    obtain ⟨i, hi⟩ := Option.isSome_iff_exists.mp hsome
    refine ⟨i, ?_⟩
    rw [hred, hi]

/-- C2 witness: code 1010-range account with BlockInverted and projected
balance −50 is rejected with the inverted-balance error. -/
theorem invertedBalance_rejection_iff_witness :
    ∃ id, (createTransaction
        ⟨[⟨"a1", "Cash", 1020, "assets", "USD", false⟩,
          ⟨"l1", "Customer", 2020, "liabilities", "USD", false⟩],
         [], [], [⟨1020, "BLOCK_NORMAL_INVERTED", "1"⟩], 1⟩
        ⟨"", "wd", [⟨0, "", "a1", -50, "USD", ""⟩, ⟨0, "", "l1", 50, "USD", ""⟩]⟩
        "t1" "2024-01-01T00:00:00.000Z").2 = some (.invertedBalance id) :=
  (invertedBalance_rejection_iff
      ⟨[⟨"a1", "Cash", 1020, "assets", "USD", false⟩,
        ⟨"l1", "Customer", 2020, "liabilities", "USD", false⟩],
       [], [], [⟨1020, "BLOCK_NORMAL_INVERTED", "1"⟩], 1⟩
      ⟨"", "wd", [⟨0, "", "a1", -50, "USD", ""⟩, ⟨0, "", "l1", 50, "USD", ""⟩]⟩
      "t1" "2024-01-01T00:00:00.000Z"
      (by decide) (by decide) (by decide) (by decide) (by decide) (by decide)).mpr
    ⟨"a1", by decide, ⟨"a1", "Cash", 1020, "assets", "USD", false⟩, by decide⟩

/-! ## Reports: trial balance (internal/store/reports.go)

The trial-balance query is
`SELECT a.id, a.name, a.currency, COALESCE(SUM(e.amount), 0) as balance
 FROM accounts a LEFT JOIN entries e ON e.account_id = a.id
 LEFT JOIN transactions t ON t.id = e.transaction_id AND t.finalized = 1
 GROUP BY a.id HAVING balance != 0 ORDER BY a.code`.
The `t.finalized = 1` condition sits in the ON clause of a LEFT JOIN and no
WHERE clause restricts the rows, so it never removes an entry from the sum:
the per-account balance ranges over ALL of the account's entries, finalized
or not. -/

/-- One account's balance as computed by the trial-balance query (all
entries of the account; see the note above). -/
def accountAllEntriesBalance (st : State) (accountID : String) : Int :=
  ((st.entries.filter (fun e => e.accountID = accountID)).map (fun e => e.amount)).sum

/-- The Debit/Credit totals of the trial balance: zero balances are omitted
(`HAVING balance != 0`), a positive balance is a Debit, a negative balance a
Credit (absolute value).  `ORDER BY a.code` only permutes the rows and does
not affect the totals. -/
def trialBalanceTotals (st : State) : Int × Int :=
  st.accounts.foldl
    (fun acc a =>
      let bal := accountAllEntriesBalance st a.id
      if bal = 0 then acc
      else if bal > 0 then (acc.1 + bal, acc.2) else (acc.1, acc.2 + (-bal)))
    (0, 0)

/-- The report's `balanced` flag: `TotalDebit == TotalCredit`. -/
def trialBalanceBalanced (st : State) : Bool :=
  (trialBalanceTotals st).1 = (trialBalanceTotals st).2

/-! Partition machinery: summing a function over a list equals summing, over
a duplicate-free list of keys covering every element, the sums of the fibers. -/

theorem sum_map_filter_split {β : Type} (L : List β) (p : β → Bool) (f : β → Int) :
    ((L.filter p).map f).sum + ((L.filter (fun b => !(p b))).map f).sum
      = (L.map f).sum := by
  induction L with
  | nil => rfl
  | cons b t ih =>
    by_cases hb : p b = true
    · simp only [List.filter_cons, hb, Bool.not_true, Bool.false_eq_true,
        if_true, if_false, List.map_cons, List.sum_cons]
      omega
    · have hb' : p b = false := by
        revert hb
        cases p b <;> simp
      simp only [List.filter_cons, hb', Bool.not_false, Bool.false_eq_true,
        if_true, if_false, List.map_cons, List.sum_cons]
      omega

theorem filter_ne_then_eq {α β : Type} [DecidableEq α] (key : β → α) (k k' : α)
    (h : k' ≠ k) (L : List β) :
    (L.filter (fun b => !(key b = k : Bool))).filter (fun b => (key b = k' : Bool))
      = L.filter (fun b => (key b = k' : Bool)) := by
  induction L with
  | nil => rfl
  | cons b t ih =>
    by_cases hbk : key b = k
    · have hbk' : ¬ (key b = k') := by
        rw [hbk]
        exact fun hx => h hx.symm
      have hkk' : ¬ (k = k') := fun hx => h hx.symm
      simp [List.filter_cons, hbk, hbk', hkk', ih]
    · simp only [List.filter_cons, hbk]
      by_cases hb' : key b = k'
      · simp [hbk, hb', List.filter_cons, ih]
      · simp [hbk, hb', List.filter_cons, ih]

theorem sum_partition {α β : Type} [DecidableEq α] (K : List α) (L : List β)
    (key : β → α) (f : β → Int) (hK : K.Nodup) (hL : ∀ b ∈ L, key b ∈ K) :
    (K.map (fun k => ((L.filter (fun b => (key b = k : Bool))).map f).sum)).sum
      = (L.map f).sum := by
  induction K generalizing L with
  | nil =>
    cases L with
    | nil => rfl
    | cons b t => exact absurd (hL b (List.mem_cons_self b t)) (by simp)
  | cons k K' ih =>
    have hknotin : k ∉ K' := (List.nodup_cons.mp hK).1
    have hK' : K'.Nodup := (List.nodup_cons.mp hK).2
    have hfibers : K'.map (fun k' => ((L.filter (fun b => (key b = k' : Bool))).map f).sum)
        = K'.map (fun k' =>
            (((L.filter (fun b => !(key b = k : Bool))).filter
                (fun b => (key b = k' : Bool))).map f).sum) := by
      refine List.map_congr_left (fun k' hk' => ?_)
      have hne : k' ≠ k := fun hx => hknotin (hx ▸ hk')
      rw [filter_ne_then_eq key k k' hne]
    have hL2 : ∀ b ∈ L.filter (fun b => !(key b = k : Bool)), key b ∈ K' := by
      intro b hb
      have hmem := List.mem_of_mem_filter hb
      have hprop := List.of_mem_filter hb
      simp only [Bool.not_eq_true', decide_eq_false_iff_not] at hprop
      rcases List.mem_cons.mp (hL b hmem) with h1 | h1
      · exact absurd h1 hprop
      · exact h1
    simp only [List.map_cons, List.sum_cons]
    rw [hfibers, ih (L.filter (fun b => !(key b = k : Bool))) hK' hL2]
    rw [← sum_map_filter_split L (fun b => (key b = k : Bool)) f]

theorem trialBalanceTotals_diff (st : State) :
    (trialBalanceTotals st).1 - (trialBalanceTotals st).2
      = (st.accounts.map (fun a => accountAllEntriesBalance st a.id)).sum := by
  unfold trialBalanceTotals
  suffices h : ∀ (accts : List Account) (init : Int × Int),
      (accts.foldl
        (fun acc a =>
          let bal := accountAllEntriesBalance st a.id
          if bal = 0 then acc
          else if bal > 0 then (acc.1 + bal, acc.2) else (acc.1, acc.2 + (-bal)))
        init).1
      - (accts.foldl
          (fun acc a =>
            let bal := accountAllEntriesBalance st a.id
            if bal = 0 then acc
            else if bal > 0 then (acc.1 + bal, acc.2) else (acc.1, acc.2 + (-bal)))
          init).2
      = init.1 - init.2 + (accts.map (fun a => accountAllEntriesBalance st a.id)).sum by
    rw [h st.accounts (0, 0)]
    omega
  intro accts
  induction accts with
  | nil => intro init; simp
  | cons a t ih =>
    intro init
    simp only [List.foldl_cons, List.map_cons, List.sum_cons]
    by_cases h0 : accountAllEntriesBalance st a.id = 0
    · simp only [h0, if_true]
      rw [ih init]
      omega
    · by_cases hpos : accountAllEntriesBalance st a.id > 0
      · simp only [h0, hpos, if_false, if_true]
        rw [ih (init.1 + accountAllEntriesBalance st a.id, init.2)]
        omega
      · simp only [h0, hpos, if_false]
        rw [ih (init.1, init.2 + -accountAllEntriesBalance st a.id)]
        omega

theorem txn_entries_sum_zero (L : List Entry)
    (h : ∀ cur, currencySum L cur = 0) :
    (L.map (fun e => e.amount)).sum = 0 := by
  rw [← sum_partition ((L.map (fun e => e.currency)).dedup) L
    (fun e => e.currency) (fun e => e.amount) (List.nodup_dedup _)
    (fun e he => List.mem_dedup.mpr (List.mem_map_of_mem _ he))]
  refine List.sum_eq_zero (fun x hx => ?_)
  obtain ⟨cur, _, rfl⟩ := List.mem_map.mp hx
  exact h cur

theorem currencySum_pair (e1 e2 : Entry) (h12 : e1.currency = e2.currency)
    (hsum : e1.amount + e2.amount = 0) : ∀ cur, currencySum [e1, e2] cur = 0 := by
  intro cur
  unfold currencySum
  by_cases hc : e1.currency = cur
  · have hc2 : e2.currency = cur := h12 ▸ hc
    simp [List.filter_cons, hc, hc2]
    omega
  · have hc2 : ¬ e2.currency = cur := h12 ▸ hc
    simp [List.filter_cons, hc, hc2]

/-- C8 counterexample: the trial-balance query's `LEFT JOIN transactions t ON
... AND t.finalized = 1` never filters out an entry, so a state holding one
entry of an unfinalized transaction — in which every finalized transaction
(there is none) trivially has per-currency zero sums — yields
`TotalDebit = 5 ≠ 0 = TotalCredit`, refuting the claim as stated. -/
theorem trialBalance_counts_unfinalized_entries :
    (∀ t ∈ (State.mk [⟨"a1", "Cash", 1020, "assets", "USD", false⟩]
          [⟨"t1", "pending", false⟩] [⟨1, "t1", "a1", 5, "USD", "2024"⟩] [] 2).transactions,
        t.finalized = true →
        ∀ cur, currencySum
          ((State.mk [⟨"a1", "Cash", 1020, "assets", "USD", false⟩]
              [⟨"t1", "pending", false⟩] [⟨1, "t1", "a1", 5, "USD", "2024"⟩] [] 2).entries.filter
            (fun e => e.transactionID = t.id)) cur = 0)
    ∧ trialBalanceBalanced
        (State.mk [⟨"a1", "Cash", 1020, "assets", "USD", false⟩]
          [⟨"t1", "pending", false⟩] [⟨1, "t1", "a1", 5, "USD", "2024"⟩] [] 2) = false := by
  refine ⟨?_, by decide⟩
  intro t ht hf
  rw [List.mem_singleton] at ht
  subst ht
  exact absurd hf (by decide)

/-- C8 (amended): in every state where each entry references an existing
account and an existing transaction, every stored transaction is finalized,
each transaction's entries sum to zero per currency, and account/transaction
ids are unique (the table primary keys), the trial balance satisfies
`TotalDebit = TotalCredit` (`balanced = true`); each account's all-entries
balance is presented as Debit when positive and as Credit (absolute value)
when negative, zero balances omitted. -/
theorem trialBalance_balanced_of_finalized (st : State)
    (hEA : ∀ e ∈ st.entries, ∃ a ∈ st.accounts, a.id = e.accountID)
    (hET : ∀ e ∈ st.entries, ∃ t ∈ st.transactions, t.id = e.transactionID)
    (hFin : ∀ t ∈ st.transactions, t.finalized = true)
    (hZero : ∀ t ∈ st.transactions, t.finalized = true →
      ∀ cur, currencySum (st.entries.filter (fun e => e.transactionID = t.id)) cur = 0)
    (hNA : (st.accounts.map (fun a => a.id)).Nodup)
    (hNT : (st.transactions.map (fun t => t.id)).Nodup) :
    trialBalanceBalanced st = true := by
  unfold trialBalanceBalanced
  suffices h : (trialBalanceTotals st).1 = (trialBalanceTotals st).2 by simp [h]
  have hdiff := trialBalanceTotals_diff st
  have h2 : (st.accounts.map (fun a => accountAllEntriesBalance st a.id)).sum
      = (st.entries.map (fun e => e.amount)).sum := by
    have hmapmap : st.accounts.map (fun a => accountAllEntriesBalance st a.id)
        = (st.accounts.map (fun a => a.id)).map
            (fun k => ((st.entries.filter
                (fun e => (e.accountID = k : Bool))).map (fun e => e.amount)).sum) := by
      rw [List.map_map]
      rfl
    rw [hmapmap]
    refine sum_partition _ _ _ _ hNA (fun e he => ?_)
    obtain ⟨a, ha, haid⟩ := hEA e he
    exact List.mem_map.mpr ⟨a, ha, haid⟩
  have h3 : (st.entries.map (fun e => e.amount)).sum = 0 := by
    rw [← sum_partition (st.transactions.map (fun t => t.id)) st.entries
      (fun e => e.transactionID) (fun e => e.amount) hNT
      (fun e he => by
        obtain ⟨t, ht, htid⟩ := hET e he
        exact List.mem_map.mpr ⟨t, ht, htid⟩)]
    refine List.sum_eq_zero (fun x hx => ?_)
    obtain ⟨tid, htidmem, rfl⟩ := List.mem_map.mp hx
    obtain ⟨t, ht, rfl⟩ := List.mem_map.mp htidmem
    exact txn_entries_sum_zero _ (hZero t ht (hFin t ht))
  rw [h2, h3] at hdiff
  omega

/-- C8 amended-theorem witness: one finalized balanced deposit yields a
balanced trial balance (Debit 100 = Credit 100). -/
theorem trialBalance_balanced_of_finalized_witness :
    trialBalanceBalanced
      (State.mk
        [⟨"a1", "Cash", 1020, "assets", "USD", false⟩,
          ⟨"l1", "Customer", 2020, "liabilities", "USD", false⟩]
        [⟨"t1", "deposit", true⟩]
        [⟨1, "t1", "a1", 100, "USD", "2024"⟩, ⟨2, "t1", "l1", -100, "USD", "2024"⟩]
        [] 3) = true :=
  trialBalance_balanced_of_finalized _
    (by decide) (by decide) (by decide)
    (by
      intro t ht _
      rw [List.mem_singleton] at ht
      subst ht
      intro cur
      exact currencySum_pair
        ⟨1, "t1", "a1", 100, "USD", "2024"⟩ ⟨2, "t1", "l1", -100, "USD", "2024"⟩
        rfl (by decide) cur)
    (by decide) (by decide)

/-! ## ListEntriesByAccount (internal/store/transactions.go)

The query is
`SELECT ... FROM entries e JOIN transactions t ON t.id = e.transaction_id
 WHERE e.account_id = ? AND t.finalized = 1 ORDER BY e.created_at DESC`
followed by `LIMIT`/`OFFSET` when `filter.Limit > 0`.  The rows are ordered
by the `created_at` text column DESCENDING — not by the entry id.  SQL leaves
the relative order of equal keys unspecified; insertion sort below is one
refinement of `ORDER BY created_at DESC`. -/

/-- The row order produced by `ORDER BY e.created_at DESC`: an entry sorts
before another when its `created_at` text is at least as large in the
lexicographic (BINARY collation) order. -/
def entryCreatedDesc (a b : Entry) : Prop :=
  b.createdAt.toList ≤ a.createdAt.toList

instance : DecidableRel entryCreatedDesc :=
  fun a b => inferInstanceAs (Decidable (b.createdAt.toList ≤ a.createdAt.toList))

instance : IsTotal Entry entryCreatedDesc :=
  ⟨fun a b => (le_total b.createdAt.toList a.createdAt.toList).imp
    (fun h => h) (fun h => h)⟩

instance : IsTrans Entry entryCreatedDesc :=
  ⟨fun _ _ _ hab hbc => le_trans hbc hab⟩

/-- Embeds `Store.ListEntriesByAccount`: finalized entries of one account,
ordered by `created_at` descending, with the `LIMIT`/`OFFSET` clauses
appended only when `filter.Limit > 0`. -/
def listEntriesByAccount (st : State) (accountID : String) (limit offset : Int) :
    List Entry :=
  let rows := List.insertionSort entryCreatedDesc
    (st.entries.filter
      (fun e => e.accountID = accountID && txnFinalized st e.transactionID))
  if limit > 0 then
    (if offset > 0 then rows.drop offset.toNat else rows).take limit.toNat
  else rows

/-- C10 counterexample: two finalized entries with ids 1 and 2 and ascending
`created_at` timestamps come back as `[2, 1]` — `ORDER BY created_at DESC`,
not the claimed ascending entry-id order. -/
theorem listEntriesByAccount_not_ordered_by_id :
    ((listEntriesByAccount
        (State.mk [⟨"a1", "Cash", 1020, "assets", "USD", false⟩]
          [⟨"t1", "x", true⟩, ⟨"t2", "y", true⟩]
          [⟨1, "t1", "a1", 5, "USD", "2024-01-01T00:00:00.000Z"⟩,
            ⟨2, "t2", "a1", -5, "USD", "2024-01-02T00:00:00.000Z"⟩]
          [] 3)
        "a1" 0 0).map (fun e => e.id)) = [2, 1] ∧
    ¬ List.Pairwise (fun i j : Nat => i ≤ j)
      ((listEntriesByAccount
        (State.mk [⟨"a1", "Cash", 1020, "assets", "USD", false⟩]
          [⟨"t1", "x", true⟩, ⟨"t2", "y", true⟩]
          [⟨1, "t1", "a1", 5, "USD", "2024-01-01T00:00:00.000Z"⟩,
            ⟨2, "t2", "a1", -5, "USD", "2024-01-02T00:00:00.000Z"⟩]
          [] 3)
        "a1" 0 0).map (fun e => e.id)) := by
  refine ⟨by decide, by decide⟩

/-- C10 (amended): for every state and every limit/offset, the list returned
by `ListEntriesByAccount` is ordered by the entry `created_at` timestamp,
descending (`ORDER BY e.created_at DESC`), not by the entry id. -/
theorem listEntriesByAccount_sorted_createdAt_desc (st : State)
    (accountID : String) (limit offset : Int) :
    List.Pairwise entryCreatedDesc (listEntriesByAccount st accountID limit offset) := by
  unfold listEntriesByAccount
  have hs : List.Pairwise entryCreatedDesc
      (List.insertionSort entryCreatedDesc
        (st.entries.filter
          (fun e => e.accountID = accountID && txnFinalized st e.transactionID))) :=
    List.sorted_insertionSort entryCreatedDesc _
  by_cases hl : limit > 0
  · rw [if_pos hl]
    by_cases ho : offset > 0
    · rw [if_pos ho]
      exact ((hs.sublist (List.drop_sublist _ _)).sublist (List.take_sublist _ _))
    · rw [if_neg ho]
      exact hs.sublist (List.take_sublist _ _)
  · rw [if_neg hl]
    exact hs

end Miniledger
